import Mathlib

/-!
Shallow embedding of the ema-ma trading repository (indicators.py, trading.py,
binance_client.py) and proofs about it.  Prices and monetary amounts are
modelled as exact rationals; Python `None` becomes `Option`, raised exceptions
become `Except` errors or an explicit error field.
-/

namespace EmaMa

/-- Position side, "LONG" or "SHORT" in the source. -/
inductive Side
  | long
  | short
deriving DecidableEq, Repr

/-- Result of `crossover` (indicators.py:56-59). -/
structure CrossSignal where
  golden_cross : Bool
  death_cross : Bool
deriving DecidableEq, Repr

/-- Loop body of `sma` (indicators.py:11-23).  The window accumulates each
value, pops the front once the length exceeds `period`, emits `None` while the
window is short, and otherwise emits `sum(window)/period`; dividing by a zero
period raises ZeroDivisionError, modelled as an `Except.error`. -/
def smaAux (period : Int) : List ℚ → List ℚ → Except String (List (Option ℚ))
  | _, [] => .ok []
  | window, v :: rest =>
    let w1 := window ++ [v]
    let w2 := if (w1.length : Int) > period then w1.tail else w1
    if (w2.length : Int) < period then
      match smaAux period w2 rest with
      | .error e => .error e
      | .ok out => .ok (none :: out)
    else
      if period = 0 then .error "ZeroDivisionError: division by zero"
      else
        match smaAux period w2 rest with
        | .error e => .error e
        | .ok out => .ok (some (w2.sum / (period : ℚ)) :: out)

/-- Model of `sma` (indicators.py:11-23): simple moving average, `None`-padded
while the first window is incomplete. -/
def sma (values : List ℚ) (period : Int) : Except String (List (Option ℚ)) :=
  smaAux period [] values

/-- Loop body of `ema` (indicators.py:38-52).  `full` is the whole input list
(`values[:period]` is taken from it for the seed), `i` the running index and
`prev` the previous EMA value. -/
def emaAux (full : List ℚ) (p : Nat) (k : ℚ) : List ℚ → Nat → Option ℚ → List (Option ℚ)
  | [], _, _ => []
  | v :: rest, i, prev =>
    if i < p - 1 then
      none :: emaAux full p k rest (i + 1) prev
    else if i = p - 1 then
      let seed := (full.take p).sum / (p : ℚ)
      some seed :: emaAux full p k rest (i + 1) (some seed)
    else
      let curr := v * k + (match prev with | some e => e | none => v) * (1 - k)
      some curr :: emaAux full p k rest (i + 1) (some curr)

/-- Model of `ema` (indicators.py:26-53): raises for `period <= 0`, otherwise
seeds with the SMA of the first `period` samples and then iterates
`ema_t = v*k + ema_prev*(1-k)` with `k = 2/(period+1)`. -/
def ema (values : List ℚ) (period : Int) : Except String (List (Option ℚ)) :=
  if period ≤ 0 then .error "ValueError: period must be > 0"
  else .ok (emaAux values period.toNat (2 / ((period : ℚ) + 1)) values 0 none)

/-- Model of `crossover` (indicators.py:62-84): compares the last two points of
both series, with tolerance `eps`; any empty/short list or `None` endpoint
yields `{false, false}`. -/
def crossover (ema_list ma_list : List (Option ℚ)) (eps : ℚ) : CrossSignal :=
  if ema_list.isEmpty || ma_list.isEmpty then ⟨false, false⟩
  else if ema_list.length < 2 || ma_list.length < 2 then ⟨false, false⟩
  else
    match ema_list.reverse, ma_list.reverse with
    | curr_ema :: prev_ema :: _, curr_ma :: prev_ma :: _ =>
      match prev_ema, curr_ema, prev_ma, curr_ma with
      | some pe, some ce, some pm, some cm =>
        ⟨decide (pe ≤ pm + eps) && decide (ce ≥ cm - eps),
         decide (pe ≥ pm - eps) && decide (ce ≤ cm + eps)⟩
      | _, _, _, _ => ⟨false, false⟩
    | _, _ => ⟨false, false⟩

/-- Default tolerance `eps = 1e-8` of `crossover` (indicators.py:62). -/
def defaultEps : ℚ := 1 / 100000000

/-- Model of `is_rising` (indicators.py:87-104): true iff the series has at
least `lookback` entries and its last `lookback` entries are all defined and
pairwise non-decreasing. -/
def is_rising (series : List (Option ℚ)) (lookback : Nat) : Bool :=
  if series.length < lookback then false
  else
    let lastVals := series.drop (series.length - lookback)
    if lastVals.any (fun v => v.isNone) then false
    else
      let vals := lastVals.filterMap id
      (vals.zip vals.tail).all (fun q => decide (q.1 ≤ q.2))

/-! Claim C7: seed equality and the EMA recurrence. -/

/-- Closed form of the EMA recursion: `emaFrom full p k n` is the EMA value at
index `p-1+n` of the output of `ema full p`. -/
def emaFrom (full : List ℚ) (p : Nat) (k : ℚ) : Nat → ℚ
  | 0 => (full.take p).sum / (p : ℚ)
  | n + 1 => full.getD (p + n) 0 * k + emaFrom full p k n * (1 - k)

/-! Model of the trading engine (trading.py) and its exchange client. -/

/-- Python truthiness fallback `x or fallback` for a float `x`: `0.0` is falsy. -/
def pyOr (x fallback : ℚ) : ℚ := if x = 0 then fallback else x

/-- Python `float(x or fallback)` for an optional float `x`: `None` and `0.0`
both fall back. -/
def pyOrOpt (x : Option ℚ) (fallback : ℚ) : ℚ :=
  match x with
  | none => fallback
  | some v => if v = 0 then fallback else v

/-- Model of `Position` (trading.py:26-31). -/
structure Position where
  side : Option Side
  entry_price : Option ℚ
  qty : Option ℚ
  open_fee : Option ℚ
deriving DecidableEq, Repr

/-- Side column of a `trades`-table row: "LONG", "SHORT" or "CLOSE". -/
inductive TradeSide
  | long
  | short
  | close
deriving DecidableEq, Repr

/-- Map a position side to its trade-row label. -/
def Side.toTradeSide : Side → TradeSide
  | .long => .long
  | .short => .short

/-- Row of the `trades` table (trading.py:264-278); timestamps and the symbol
are dropped from the model. -/
structure TradeRow where
  side : TradeSide
  price : ℚ
  qty : ℚ
  fee : ℚ
  pnl : ℚ
  balance_after : ℚ
deriving DecidableEq, Repr

/-- Row of the `position` table (trading.py:289-300); timestamp dropped. -/
structure PositionRow where
  side : Side
  entry_price : ℚ
  qty : ℚ
  open_fee : ℚ
deriving DecidableEq, Repr

/-- Candle payload consumed by `on_realtime_kline` and `ingest_historical`. -/
structure Kline where
  open_time : Int
  close_time : Int
  open_price : ℚ
  high : ℚ
  low : ℚ
  close : ℚ
  volume : ℚ
  is_final : Bool
deriving DecidableEq, Repr

/-- Cross-log debounce tag `_last_cross_tag` (trading.py:67). -/
inductive CrossTag
  | golden
  | death
deriving DecidableEq, Repr

/-- In-memory state of `TradingEngine` (trading.py:34-246): configuration,
balances, position, price/indicator series and the SQLite tables, the latter
modelled as in-memory lists with times dropped. -/
structure EngineState where
  test_mode : Bool
  has_client : Bool
  dual_side : Bool
  use_closed_only : Bool
  use_slope : Bool
  ema_period : Int
  ma_period : Int
  initial_balance : ℚ
  balance : ℚ
  percent : ℚ
  leverage : ℚ
  fee_rate : ℚ
  step_size : ℚ
  minNotional : Option ℚ
  series_maxlen : Int
  position : Position
  current_price : Option ℚ
  timestamps : List Int
  closes : List ℚ
  ema_list : List (Option ℚ)
  ma_list : List (Option ℚ)
  latest_kline : Option Kline
  last_cross_tag : Option CrossTag
  klines_table : List Kline
  trades : List TradeRow
  wallet : List ℚ
  position_table : List PositionRow
deriving DecidableEq, Repr

/-- Position fields the engine reads from a `get_futures_position` result
(binance_client.py:184-241). -/
structure PosInfo where
  positionAmt : Option ℚ
  entryPrice : Option ℚ
deriving DecidableEq, Repr

/-- Exchange response to one `create_futures_market_order` call
(binance_client.py:263-307): `noResp` models a `None` return, `err` an
`error: true` dictionary, `exc` an exception raised while the engine handles
the call, and `resp` a normal response dictionary. -/
inductive OrderOutcome
  | noResp
  | err
  | exc
  | resp (avgPrice cumQty executedQty : Option ℚ) (status : Option String)
deriving DecidableEq, Repr

/-- Oracle for exchange interactions: the successive results of
`get_futures_position(symbol)` queries and of order submissions.  An exhausted
list behaves like a failed call (`None` position / no response). -/
structure Oracle where
  posResps : List (Option PosInfo)
  orderResps : List OrderOutcome
deriving DecidableEq, Repr

/-- Consume the next position-query response. -/
def takePos (o : Oracle) : Option PosInfo × Oracle :=
  match o.posResps with
  | [] => (none, o)
  | r :: rest => (r, { o with posResps := rest })

/-- Consume the next order response. -/
def takeOrder (o : Oracle) : OrderOutcome × Oracle :=
  match o.orderResps with
  | [] => (.noResp, o)
  | r :: rest => (r, { o with orderResps := rest })

/-- Model of calling `get_futures_position` with the keyword argument
`prefer_side`, as trading.py does at lines 633, 656, 666, 687, 710, 720, 750,
761, 778, 800, 811, 828, 1111 and 1146: the client function
(binance_client.py:184) accepts only `(symbol, recv_window_ms)`, so the call
raises `TypeError` at call time; no request is made and no oracle entry is
consumed. -/
def get_futures_position_prefer (_o : Oracle) :
    Except String (Option PosInfo × Oracle) :=
  .error "TypeError: get_futures_position() got an unexpected keyword argument"

/-- Model of the inner helper `floor_to_step` (trading.py:858-859). -/
def floor_to_step (x step : ℚ) : ℚ := (⌊x / step⌋ : ℚ) * step

/-- Model of the inner helper `ceil_to_step` (trading.py:860-861). -/
def ceil_to_step (x step : ℚ) : ℚ := (⌈x / step⌉ : ℚ) * step

/-- Model of `TradingEngine._notional_and_qty` (trading.py:851-883):
`notional = initial_balance * percent * leverage`, `qty = notional / price`
floored to the step (`_step_size or 0.001`), then raised to
`ceil_to_step(min_notional / price)` if the resulting notional is below a
configured positive minimum. -/
def notional_and_qty (st : EngineState) (price : ℚ) : ℚ × ℚ :=
  let base_amount := st.initial_balance * st.percent
  let notional := base_amount * st.leverage
  let qty0 := notional / price
  let step := pyOr st.step_size (1 / 1000)
  let qty1 := if step > 0 then floor_to_step qty0 step else qty0
  let qty2 :=
    match st.minNotional with
    | some mn =>
      if 0 < mn then
        if price * qty1 < mn then ceil_to_step (mn / price) step else qty1
      else qty1
    | none => qty1
  (notional, qty2)

/-- Observable actions of the engine: entry into `_open_position` (any mode)
and actual market-order submissions to the exchange (live mode only). -/
inductive Action
  | openAttempt (side : Side)
  | openOrder (side : Side)
  | closeOrder (side : Side)
deriving DecidableEq, Repr

/-- Result of one engine operation: success flag, new state, remaining oracle
and the actions performed, in order. -/
structure OpResult where
  ok : Bool
  state : EngineState
  oracle : Oracle
  actions : List Action
deriving DecidableEq, Repr

/-- Model of `str(status).upper() == "FILLED"`; `str(None)` is `"None"`,
which never matches. -/
def statusFilled : Option String → Bool
  | some s => s.toUpper == "FILLED"
  | none => false

/-- Success flag of an order response, as computed identically in
`_open_position` (trading.py:919-927) and `_close_position`
(trading.py:1023-1030): `cum_qty = cumQty or executedQty` (the real Binance
fields are non-empty strings, so the `or` falls through exactly when `cumQty`
is missing), success iff the executed quantity is positive or the status is
FILLED; a `None` response, an error dictionary and an exception all fail. -/
def order_success (res : OrderOutcome) : Bool :=
  match res with
  | .noResp => false
  | .err => false
  | .exc => false
  | .resp _ cumQty executedQty status =>
    (match cumQty.orElse (fun _ => executedQty) with
     | some q => decide (0 < q)
     | none => false) || statusFilled status

/-- Executed price and quantity extracted from an order response, with the
request's price/qty as defaults (trading.py:919-925 and 1023-1029); `none`
models the exception path, where the caller returns `False` at once. -/
def orderFill (res : OrderOutcome) (price qty : ℚ) : Option (ℚ × ℚ × Bool) :=
  match res with
  | .noResp => some (price, qty, false)
  | .err => some (price, qty, false)
  | .exc => none
  | .resp avgPrice cumQty executedQty _ =>
    let cum_qty := cumQty.orElse (fun _ => executedQty)
    some (avgPrice.getD price, cum_qty.getD qty, order_success res)

/-- Local bookkeeping of a successful open (trading.py:968-975): book the
entry fee, append the trade row (`pnl = -fee`) and a wallet snapshot, assign
the position and rewrite the single-row `position` table. -/
def applyOpenFill (st : EngineState) (side : Side) (exec_price exec_qty : ℚ) :
    EngineState :=
  let fee := exec_price * exec_qty * st.leverage * st.fee_rate / st.leverage
  let balance1 := st.balance - fee
  { st with
    balance := balance1
    trades := st.trades ++ [⟨side.toTradeSide, exec_price, exec_qty, fee, -fee, balance1⟩]
    wallet := st.wallet ++ [balance1]
    position := ⟨some side, some exec_price, some exec_qty, some fee⟩
    position_table := [⟨side, exec_price, exec_qty, fee⟩] }

/-- Model of `TradingEngine._open_position` (trading.py:885-981).  In live
mode a market order is submitted; on an error response, a response with no
positive executed quantity and a status other than FILLED, a missing response
or an exception, the function returns `False` without touching local state.
Otherwise — and always in simulated mode — the fill is booked locally. -/
def open_position (st : EngineState) (o : Oracle) (side : Side) (price : ℚ) :
    OpResult :=
  let qty := (notional_and_qty st price).2
  if !st.test_mode && st.has_client then
    let tor := takeOrder o
    match orderFill tor.1 price qty with
    | none => ⟨false, st, tor.2, [.openAttempt side, .openOrder side]⟩
    | some fill =>
      if fill.2.2 then
        ⟨true, applyOpenFill st side fill.1 fill.2.1, tor.2,
          [.openAttempt side, .openOrder side]⟩
      else ⟨false, st, tor.2, [.openAttempt side, .openOrder side]⟩
  else ⟨true, applyOpenFill st side price qty, o, [.openAttempt side]⟩

/-- Local bookkeeping of a successful close (trading.py:1070-1092): realize
pnl minus the closing fee, append the CLOSE trade row (net of the stored open
fee) and a wallet snapshot, clear the position and empty the `position`
table. -/
def applyCloseFill (st : EngineState) (side : Side)
    (entry open_fee exec_price exec_qty : ℚ) : EngineState :=
  let pnl := match side with
    | .long => (exec_price - entry) * exec_qty
    | .short => (entry - exec_price) * exec_qty
  let fee := exec_price * exec_qty * st.fee_rate
  let balance1 := st.balance + pnl - fee
  let net_pnl := pnl - fee - open_fee
  { st with
    balance := balance1
    trades := st.trades ++ [⟨.close, exec_price, exec_qty, fee, net_pnl, balance1⟩]
    wallet := st.wallet ++ [balance1]
    position := ⟨none, none, none, none⟩
    position_table := [] }

/-- Model of `TradingEngine._close_position` (trading.py:983-1093): returns
`False` at once if side, entry price or quantity is `None`; in live mode
submits a closing market order with the same failure handling as
`_open_position`; on success (and always in simulated mode) books the close
locally. -/
def close_position (st : EngineState) (o : Oracle) (price : ℚ) : OpResult :=
  match st.position.side, st.position.entry_price, st.position.qty with
  | some side, some entry, some qty =>
    let open_fee := pyOrOpt st.position.open_fee 0
    if !st.test_mode && st.has_client then
      let tor := takeOrder o
      match orderFill tor.1 price qty with
      | none => ⟨false, st, tor.2, [.closeOrder side]⟩
      | some fill =>
        if fill.2.2 then
          ⟨true, applyCloseFill st side entry open_fee fill.1 fill.2.1, tor.2,
            [.closeOrder side]⟩
        else ⟨false, st, tor.2, [.closeOrder side]⟩
    else ⟨true, applyCloseFill st side entry open_fee price qty, o, []⟩
  | _, _, _ => ⟨false, st, o, []⟩

/-- Model of `TradingEngine._open_with_confirm` (trading.py:1095-1128) with
the retry budget as fuel.  In live mode the confirmation check calls
`get_futures_position(..., prefer_side=...)`, which raises `TypeError` on
every poll (see `get_futures_position_prefer`); `_wait_until`
(trading.py:1174-1189) swallows the exception and returns `False` at the
deadline, so `ok_confirm` is always false in live mode and every attempt is
retried until the budget is exhausted. -/
def open_with_confirm_aux (side : Side) (price : ℚ) :
    Nat → EngineState → Oracle → OpResult
  | 0, st, o => ⟨false, st, o, []⟩
  | n + 1, st, o =>
    let r := open_position st o side price
    if !r.ok then
      let r2 := open_with_confirm_aux side price n r.state r.oracle
      ⟨r2.ok, r2.state, r2.oracle, r.actions ++ r2.actions⟩
    else if !r.state.test_mode && r.state.has_client then
      let ok_confirm := false
      if ok_confirm then ⟨true, r.state, r.oracle, r.actions⟩
      else
        let r2 := open_with_confirm_aux side price n r.state r.oracle
        ⟨r2.ok, r2.state, r2.oracle, r.actions ++ r2.actions⟩
    else ⟨true, r.state, r.oracle, r.actions⟩

/-- `_open_with_confirm` with its default `max_retries = 5`. -/
def open_with_confirm (st : EngineState) (o : Oracle) (side : Side) (price : ℚ) :
    OpResult :=
  open_with_confirm_aux side price 5 st o

/-- Model of `TradingEngine._close_with_confirm` (trading.py:1130-1172) with
the retry budget as fuel.  As with opens, the live confirmation check raises
`TypeError` before it can read or sync the residual position, so `ok_confirm`
is always false in live mode and the attempt is retried (each retry's
`_close_position` then fails at its `None`-side guard). -/
def close_with_confirm_aux (price : ℚ) :
    Nat → EngineState → Oracle → OpResult
  | 0, st, o => ⟨false, st, o, []⟩
  | n + 1, st, o =>
    let r := close_position st o price
    if !r.ok then
      let r2 := close_with_confirm_aux price n r.state r.oracle
      ⟨r2.ok, r2.state, r2.oracle, r.actions ++ r2.actions⟩
    else if !r.state.test_mode && r.state.has_client then
      let ok_confirm := false
      if ok_confirm then ⟨true, r.state, r.oracle, r.actions⟩
      else
        let r2 := close_with_confirm_aux price n r.state r.oracle
        ⟨r2.ok, r2.state, r2.oracle, r.actions ++ r2.actions⟩
    else ⟨true, r.state, r.oracle, r.actions⟩

/-- `_close_with_confirm` with its default `max_retries = 5`; the `prev_side`
parameter is only read by the raising confirmation check. -/
def close_with_confirm (st : EngineState) (o : Oracle) (_prev_side : Side)
    (price : ℚ) : OpResult :=
  close_with_confirm_aux price 5 st o

/-- Python slice `l[-keep:]` for `keep > 0`: the last `keep` elements. -/
def takeLast (l : List α) (keep : Nat) : List α := l.drop (l.length - keep)

/-- Model of `TradingEngine._recalc_indicators` (trading.py:489-491).  An
exception from `ema` aborts before `ema_list` is assigned; one from `sma`
aborts after it. -/
def recalc_indicators (st : EngineState) : EngineState × Option String :=
  match ema st.closes st.ema_period with
  | .error e => (st, some e)
  | .ok el =>
    let st1 := { st with ema_list := el }
    match sma st1.closes st1.ma_period with
    | .error e => (st1, some e)
    | .ok ml => ({ st1 with ma_list := ml }, none)

/-- Model of `TradingEngine._trim_series_if_needed(recalc=True)`
(trading.py:493-517); both call sites pass `recalc=True`, so the
stale-slicing branch is never taken. -/
def trim_series_if_needed (st : EngineState) : EngineState × Option String :=
  if st.series_maxlen ≤ 0 then recalc_indicators st
  else if (st.timestamps.length : Int) ≤ st.series_maxlen then recalc_indicators st
  else
    let keep := st.series_maxlen.toNat
    recalc_indicators { st with
      timestamps := takeLast st.timestamps keep
      closes := takeLast st.closes keep }

/-- Loop body of `ingest_historical` (trading.py:520-523): insert the candle
into the `klines` table and append its close time and close price. -/
def ingest_append (s : EngineState) (k : Kline) : EngineState :=
  { s with
    klines_table := s.klines_table ++ [k]
    timestamps := s.timestamps ++ [k.close_time]
    closes := s.closes ++ [k.close] }

/-- Model of `TradingEngine.ingest_historical` (trading.py:519-525): insert
each candle, then trim and recalculate once. -/
def ingest_historical (st : EngineState) (ks : List Kline) :
    EngineState × Option String :=
  trim_series_if_needed (ks.foldl ingest_append st)

/-- Series advancement of `on_realtime_kline` (trading.py:538-552): append a
new point when the close time differs from the last one (or the series is
empty), else overwrite the last close (`closes[-1] = price`; `closes` is
nonempty whenever `timestamps` is, by the alignment invariant). -/
def append_or_replace (st : EngineState) (close_time : Int) (price : ℚ) :
    EngineState :=
  if st.timestamps.getLast? ≠ some close_time then
    { st with
      timestamps := st.timestamps ++ [close_time]
      closes := st.closes ++ [price] }
  else { st with closes := st.closes.dropLast ++ [price] }

/-- Live-mode manual-position sync of `on_realtime_kline`
(trading.py:597-616): when local state is flat in live mode, query the
exchange (this call passes no `prefer_side` and is well-formed) and adopt any
non-zero reported position with a zero recorded open fee, rewriting the
`position` table; `entryPrice or price` falls back on `None` or `0`. -/
def manual_sync (st : EngineState) (o : Oracle) (price : ℚ) :
    EngineState × Oracle :=
  if !st.test_mode && st.has_client && st.position.side == none then
    let tp := takePos o
    match tp.1 with
    | some info =>
      match info.positionAmt with
      | some amt =>
        if 0 < |amt| then
          let side_sync : Side := if 0 < amt then .long else .short
          let entry_sync := pyOrOpt info.entryPrice price
          ({ st with
              position := ⟨some side_sync, some entry_sync, some |amt|, some 0⟩
              position_table := [⟨side_sync, entry_sync, |amt|, 0⟩] }, tp.2)
        else (st, tp.2)
      | none => (st, tp.2)
    | none => (st, tp.2)
  else (st, o)

/-- Open/close decision step of `on_realtime_kline` (trading.py:622-844),
reached only when both indicator endpoints are defined and, under
`use_closed_only`, the candle is final.  Every live-mode branch begins by
querying the exchange with `prefer_side`, which raises `TypeError`
(`get_futures_position_prefer`), so control always falls through to the
matching `except` handler; the `.ok` branches of those matches are therefore
unreachable (there is no input on which the query succeeds) and stand for the
source's dead in-try close-then-open code. -/
def trade_logic (st : EngineState) (o : Oracle) (k : Kline) (cross : CrossSignal)
    (price : ℚ) : EngineState × Oracle × List Action :=
  match st.position.side with
  | none =>
    if cross.golden_cross then
      if k.is_final && !st.test_mode && st.has_client then
        match get_futures_position_prefer o with
        | .error _ =>
          -- except handler (trading.py:674-676): open directly
          let r := open_with_confirm st o .long price
          (r.state, r.oracle, r.actions)
        | .ok _ =>
          -- unreachable: stands for the dead reversal code trading.py:633-673
          (st, o, [])
      else
        -- simulated mode or non-final candle (trading.py:677-679)
        let r := open_with_confirm st o .long price
        (r.state, r.oracle, r.actions)
    else if cross.death_cross then
      if k.is_final && !st.test_mode && st.has_client then
        match get_futures_position_prefer o with
        | .error _ =>
          -- except handler (trading.py:728-730): open directly
          let r := open_with_confirm st o .short price
          (r.state, r.oracle, r.actions)
        | .ok _ =>
          -- unreachable: stands for the dead reversal code trading.py:685-727
          (st, o, [])
      else
        let r := open_with_confirm st o .short price
        (r.state, r.oracle, r.actions)
    else (st, o, [])
  | some .long =>
    if cross.death_cross then
      if k.is_final && !st.test_mode && st.has_client then
        match get_futures_position_prefer o with
        | .error _ =>
          -- except handler (trading.py:786-790): close, then reverse
          let rc := close_with_confirm st o .long price
          if rc.ok then
            let r := open_with_confirm rc.state rc.oracle .short price
            (r.state, r.oracle, rc.actions ++ r.actions)
          else (rc.state, rc.oracle, rc.actions)
        | .ok _ =>
          -- unreachable: stands for the dead code trading.py:750-785
          (st, o, [])
      else
        let rc := close_with_confirm st o .long price
        if rc.ok then
          let r := open_with_confirm rc.state rc.oracle .short price
          (r.state, r.oracle, rc.actions ++ r.actions)
        else (rc.state, rc.oracle, rc.actions)
    else (st, o, [])
  | some .short =>
    if cross.golden_cross then
      if k.is_final && !st.test_mode && st.has_client then
        match get_futures_position_prefer o with
        | .error _ =>
          -- except handler (trading.py:836-840): close, then reverse
          let rc := close_with_confirm st o .short price
          if rc.ok then
            let r := open_with_confirm rc.state rc.oracle .long price
            (r.state, r.oracle, rc.actions ++ r.actions)
          else (rc.state, rc.oracle, rc.actions)
        | .ok _ =>
          -- unreachable: stands for the dead code trading.py:800-835
          (st, o, [])
      else
        let rc := close_with_confirm st o .short price
        if rc.ok then
          let r := open_with_confirm rc.state rc.oracle .long price
          (r.state, r.oracle, rc.actions ++ r.actions)
        else (rc.state, rc.oracle, rc.actions)
    else (st, o, [])

/-- Result of an `on_realtime_kline` call: the state after the call, the
remaining oracle, the actions performed, and the uncaught exception if one was
raised (the state then reflects all mutations made before the raise). -/
structure StepResult where
  state : EngineState
  oracle : Oracle
  actions : List Action
  err : Option String
deriving DecidableEq, Repr

/-- Series-advancement phase of `on_realtime_kline` (trading.py:533-553):
under `use_closed_only` the closed series advances only on a final candle;
otherwise every tick advances it. -/
def advance_series (st : EngineState) (k : Kline) : EngineState × Option String :=
  if st.use_closed_only then
    if k.is_final then trim_series_if_needed (append_or_replace st k.close_time k.close)
    else (st, none)
  else trim_series_if_needed (append_or_replace st k.close_time k.close)

/-- Cross-log debounce update (trading.py:581-588): record the cross tag only
when it changed. -/
def update_cross_tag (st : EngineState) (cross : CrossSignal) : EngineState :=
  let cross_tag : Option CrossTag :=
    if cross.golden_cross then some .golden
    else if cross.death_cross then some .death else none
  if cross_tag.isSome && decide (cross_tag ≠ st.last_cross_tag) then
    { st with last_cross_tag := cross_tag }
  else st

/-- Decision phase of `on_realtime_kline` (trading.py:581-848), reached once
both indicator endpoints are defined: update the cross-log debounce tag, run
the live manual-position sync, return early on a non-final candle under
`use_closed_only`, run the open/close logic, and persist a final candle. -/
def decision_phase (st2 : EngineState) (o0 : Oracle) (k : Kline)
    (cross : CrossSignal) : StepResult :=
  let syncRes := manual_sync (update_cross_tag st2 cross) o0 k.close
  if syncRes.1.use_closed_only && !k.is_final then ⟨syncRes.1, syncRes.2, [], none⟩
  else
    let tl := trade_logic syncRes.1 syncRes.2 k cross k.close
    let st6 :=
      if k.is_final then { tl.1 with klines_table := tl.1.klines_table ++ [k] }
      else tl.1
    ⟨st6, tl.2.1, tl.2.2, none⟩

/-- Signal phase of `on_realtime_kline` (trading.py:556-620 entry): store the
unclosed-candle view, evaluate crossover and the (computed but unused) slope,
and read the indicator endpoints: `ema_list[-1]` / `ma_list[-1]` raise
`IndexError` on an empty list (trading.py:576-577), and a `None` endpoint
returns early (trading.py:578-579). -/
def post_advance (st1 : EngineState) (o0 : Oracle) (k : Kline) : StepResult :=
  let st2 := { st1 with latest_kline := some k }
  let cross := crossover st2.ema_list st2.ma_list defaultEps
  let _ema_rising := is_rising st2.ema_list 3
  match st2.ema_list.getLast?, st2.ma_list.getLast? with
  | none, _ => ⟨st2, o0, [], some "IndexError: list index out of range"⟩
  | some _, none => ⟨st2, o0, [], some "IndexError: list index out of range"⟩
  | some ema_curr, some ma_curr =>
    match ema_curr, ma_curr with
    | some _, some _ => decision_phase st2 o0 k cross
    | _, _ => ⟨st2, o0, [], none⟩

/-- Model of `TradingEngine.on_realtime_kline` (trading.py:527-848): store the
live price, advance the closed series, then run the signal and decision
phases. -/
def on_realtime_kline (st0 : EngineState) (o0 : Oracle) (k : Kline) : StepResult :=
  let stA := { st0 with current_price := some k.close }
  let adv := advance_series stA k
  match adv.2 with
  | some e => ⟨adv.1, o0, [], some e⟩
  | none => post_advance adv.1 o0 k

/-- The engine's initial position (trading.py:57). -/
def initPosition : Position := ⟨none, none, none, none⟩

/-- Startup position sync from the exchange (trading.py:124-142): adopt a
non-zero exchange position; a missing `entryPrice` is stored as `None`. -/
def startup_sync_position (p : Position) (rp : Option PosInfo) : Position :=
  match rp with
  | some info =>
    match info.positionAmt with
    | some amt =>
      if 0 < |amt| then
        let side_sync : Option Side :=
          if 0 < amt then some .long else if amt < 0 then some .short else none
        match side_sync with
        | some s => ⟨some s, info.entryPrice, some |amt|, some 0⟩
        | none => p
      else p
    | none => p
  | none => p

/-- Startup override of the restored position by exchange truth
(trading.py:225-246): `entry = float(entryPrice or 0.0) or None`; the model
covers the position assignment (the accompanying `position`-table rewrite is
the same single-row write as elsewhere). -/
def startup_override_position (p : Position) (rp : Option PosInfo) : Position :=
  match rp with
  | some info =>
    match info.positionAmt with
    | some amt =>
      if 0 < |amt| then
        let side : Side := if 0 < amt then .long else .short
        let e1 := pyOrOpt info.entryPrice 0
        ⟨some side, if e1 = 0 then none else some e1, some |amt|, some 0⟩
      else p
    | none => p
  | none => p

/-- Startup recovery of the open position from the `position` table, with
fallback inference from the `trades` table (trading.py:359-386).  A `NULL`
entry price or quantity makes `float(None)` raise `TypeError`, which the
surrounding handler swallows, leaving the position unchanged and skipping the
fallback. -/
def restore_open_position (p : Position)
    (posRow : Option (Option Side × Option ℚ × Option ℚ × Option ℚ))
    (tradeRow : Option (Side × Option ℚ × Option ℚ × Option ℚ))
    (later_close : Bool) : Position :=
  match posRow with
  | some (some s, ep, q, f) =>
    match ep, q with
    | some e, some qv => ⟨some s, some e, some qv, some (pyOrOpt f 0)⟩
    | _, _ => p
  | _ =>
    match tradeRow with
    | some (s, pr, q, f) =>
      if later_close then p
      else
        match pr, q with
        | some prv, some qv => ⟨some s, some prv, some qv, some (pyOrOpt f 0)⟩
        | _, _ => p
    | none => p

/-- A concrete simulated-mode engine configuration used as a base state in
witnesses: defaults of trading.py:39-76 with a 0.001 step and a minimum
notional of 5. -/
def testState : EngineState where
  test_mode := true
  has_client := false
  dual_side := false
  use_closed_only := true
  use_slope := true
  ema_period := 5
  ma_period := 15
  initial_balance := 1000
  balance := 1000
  percent := 1 / 2
  leverage := 10
  fee_rate := 1 / 2000
  step_size := 1 / 1000
  minNotional := some 5
  series_maxlen := 2000
  position := ⟨none, none, none, none⟩
  current_price := none
  timestamps := []
  closes := []
  ema_list := []
  ma_list := []
  latest_kline := none
  last_cross_tag := none
  klines_table := []
  trades := []
  wallet := []
  position_table := []

/-- Simulated-mode state for the C2 counterexample: EMA(2)/SMA(3) over closes
`[12, 4, 5]`, indicator lists as recalculated from those closes, flat. -/
def c2State : EngineState := { testState with
  ema_period := 2
  ma_period := 3
  timestamps := [1, 2, 3]
  closes := [12, 4, 5]
  ema_list := [none, some 8, some 6]
  ma_list := [none, none, some 7] }

/-- Final candle closing at 3 (below both resulting moving averages). -/
def c2Kline : Kline :=
  ⟨4, 4, 3, 3, 3, 3, 0, true⟩

/-- Live-mode flat state for the C1 failing input: EMA(1)/SMA(2) over closes
`[2, 1]`. -/
def c1State : EngineState := { testState with
  test_mode := false
  has_client := true
  ema_period := 1
  ma_period := 2
  timestamps := [1, 2]
  closes := [2, 1]
  ema_list := [some 2, some 1]
  ma_list := [none, some (3 / 2)] }

/-- Final candle closing at 4, completing a golden cross over `c1State`. -/
def c1Kline : Kline :=
  ⟨3, 3, 4, 4, 4, 4, 0, true⟩

/-- Oracle for the C1 failing input: the manual-sync position query fails
transiently (`get_futures_position` returns `None` on any request error,
binance_client.py:240-241 — the exchange may well hold a SHORT), and every
submitted order is rejected with an error dictionary. -/
def c1Oracle : Oracle :=
  ⟨[none], [.err, .err, .err, .err, .err]⟩

/-- Live-mode flat state for the C8 counterexample; same series as
`c2State`. -/
def c8State : EngineState := { c2State with
  test_mode := false
  has_client := true }

/-- Non-final (intra-candle) tick at price 3. -/
def c8Kline : Kline :=
  ⟨4, 4, 3, 3, 3, 3, 0, false⟩

/-- Oracle for the C8 counterexample: the exchange reports a manually opened
SHORT of 0.5 with entry 100. -/
def c8Oracle : Oracle :=
  ⟨[some ⟨some (-(1 / 2)), some 100⟩], []⟩

/-! Frame lemmas: the trading operations leave configuration and series
fields untouched. -/

/-- Fields untouched by open/close bookkeeping and the manual sync:
everything except balance, position, trades, wallet and the position table. -/
def tradeFrame (a b : EngineState) : Prop :=
  a.test_mode = b.test_mode ∧ a.has_client = b.has_client ∧
  a.use_closed_only = b.use_closed_only ∧ a.use_slope = b.use_slope ∧
  a.ema_period = b.ema_period ∧ a.ma_period = b.ma_period ∧
  a.series_maxlen = b.series_maxlen ∧
  a.timestamps = b.timestamps ∧ a.closes = b.closes ∧
  a.ema_list = b.ema_list ∧ a.ma_list = b.ma_list ∧
  a.latest_kline = b.latest_kline ∧ a.klines_table = b.klines_table

/-! Claim C4: the Position invariant. -/

/-- The Position invariant: the side is `None` iff entry price and quantity
are both `None`. -/
def PosInv (p : Position) : Prop :=
  p.side = none ↔ (p.entry_price = none ∧ p.qty = none)

/-! Claim C10: series alignment and bounding. -/

/-- The series invariant: the four in-memory series are aligned index for
index, and bounded by `series_maxlen` when that is positive. -/
def SeriesInv (st : EngineState) : Prop :=
  st.timestamps.length = st.closes.length ∧
  st.closes.length = st.ema_list.length ∧
  st.ema_list.length = st.ma_list.length ∧
  (0 < st.series_maxlen →
    (st.timestamps.length : Int) ≤ st.series_maxlen ∧
    (st.closes.length : Int) ≤ st.series_maxlen ∧
    (st.ema_list.length : Int) ≤ st.series_maxlen ∧
    (st.ma_list.length : Int) ≤ st.series_maxlen)

/-! Theorems. -/

/-! Theorems about the indicator module: claims C5 and C9. -/

/-- C5 counterexample: with both series equal at the last two points (here
constantly 1) and the default tolerance, `crossover` reports a golden cross
and a death cross simultaneously, refuting "at most one of the two flags is
true per evaluation". -/
theorem crossover_both_true_counterexample :
    (crossover [some 1, some 1] [some 1, some 1] defaultEps).golden_cross = true ∧
    (crossover [some 1, some 1] [some 1, some 1] defaultEps).death_cross = true := by
  constructor <;> norm_num [crossover, defaultEps]

/-- C5 (amended): both flags can be true only when EMA and MA are within `eps`
of each other at both of the last two valid points; and the result is
`{false,false}` whenever fewer than two points exist on either series or one
of the last two points of either series is undefined. -/
theorem crossover_amended (el ml : List (Option ℚ)) (eps : ℚ) :
    ((crossover el ml eps).golden_cross = true → (crossover el ml eps).death_cross = true →
      ∃ pe ce pm cm, el.reverse.get? 0 = some (some ce) ∧ el.reverse.get? 1 = some (some pe) ∧
        ml.reverse.get? 0 = some (some cm) ∧ ml.reverse.get? 1 = some (some pm) ∧
        |pe - pm| ≤ eps ∧ |ce - cm| ≤ eps) ∧
    (el.length < 2 ∨ ml.length < 2 → crossover el ml eps = ⟨false, false⟩) ∧
    (el.reverse.get? 0 = some none ∨ el.reverse.get? 1 = some none ∨
        ml.reverse.get? 0 = some none ∨ ml.reverse.get? 1 = some none →
      crossover el ml eps = ⟨false, false⟩) := by
  refine ⟨?_, ?_, ?_⟩
  · intro hg hd
    unfold crossover at hg hd
    by_cases h1 : (el.isEmpty || ml.isEmpty) = true
    · rw [if_pos h1] at hg; simp at hg
    rw [if_neg h1] at hg hd
    by_cases h2 : (decide (el.length < 2) || decide (ml.length < 2)) = true
    · rw [if_pos h2] at hg; simp at hg
    rw [if_neg h2] at hg hd
    rcases hrev1 : el.reverse with _ | ⟨a, rest1⟩
    · rw [hrev1] at hg; simp at hg
    rcases rest1 with _ | ⟨b, tel⟩
    · rw [hrev1] at hg; simp at hg
    rcases hrev2 : ml.reverse with _ | ⟨c, rest2⟩
    · rw [hrev1, hrev2] at hg; simp at hg
    rcases rest2 with _ | ⟨d, tml⟩
    · rw [hrev1, hrev2] at hg; simp at hg
    rw [hrev1, hrev2] at hg hd
    rcases b with _ | pe
    · simp at hg
    rcases a with _ | ce
    · simp at hg
    rcases d with _ | pm
    · simp at hg
    rcases c with _ | cm
    · simp at hg
    simp only [Bool.and_eq_true, decide_eq_true_eq] at hg hd
    refine ⟨pe, ce, pm, cm, rfl, rfl, rfl, rfl, ?_, ?_⟩
    · rw [abs_le]; constructor
      · linarith [hd.1]
      · linarith [hg.1]
    · rw [abs_le]; constructor
      · linarith [hg.2]
      · linarith [hd.2]
  · intro hlen
    have h2 : (decide (el.length < 2) || decide (ml.length < 2)) = true := by
      rcases hlen with h | h <;> simp [h]
    unfold crossover
    by_cases h1 : (el.isEmpty || ml.isEmpty) = true
    · rw [if_pos h1]
    · rw [if_neg h1, if_pos h2]
  · intro hnone
    unfold crossover
    by_cases h1 : (el.isEmpty || ml.isEmpty) = true
    · rw [if_pos h1]
    rw [if_neg h1]
    by_cases h2 : (decide (el.length < 2) || decide (ml.length < 2)) = true
    · rw [if_pos h2]
    rw [if_neg h2]
    rcases hrev1 : el.reverse with _ | ⟨a, rest1⟩
    · rfl
    rcases rest1 with _ | ⟨b, tel⟩
    · rfl
    rcases hrev2 : ml.reverse with _ | ⟨c, rest2⟩
    · rfl
    rcases rest2 with _ | ⟨d, tml⟩
    · rfl
    rcases b with _ | pe
    · rfl
    rcases a with _ | ce
    · rfl
    rcases d with _ | pm
    · rfl
    rcases c with _ | cm
    · rfl
    exfalso
    rw [hrev1, hrev2] at hnone
    simp at hnone

/-- Witness for `crossover_amended` at concrete inputs: the short-series clause
applied to empty lists, and the both-true clause applied to the constant
series of the counterexample shape shifted by one point. -/
theorem crossover_amended_witness :
    crossover ([] : List (Option ℚ)) [] defaultEps = ⟨false, false⟩ ∧
    ∃ pe ce pm cm, ([some (2:ℚ), some 2].reverse.get? 0 = some (some ce)) ∧
      ([some (2:ℚ), some 2].reverse.get? 1 = some (some pe)) ∧
      ([some (2:ℚ), some 2].reverse.get? 0 = some (some cm)) ∧
      ([some (2:ℚ), some 2].reverse.get? 1 = some (some pm)) ∧
      |pe - pm| ≤ defaultEps ∧ |ce - cm| ≤ defaultEps := by
  refine ⟨(crossover_amended [] [] defaultEps).2.1 (by decide), ?_⟩
  exact (crossover_amended [some 2, some 2] [some 2, some 2] defaultEps).1
    (by norm_num [crossover, defaultEps]) (by norm_num [crossover, defaultEps])

/-- C9 counterexample: for the non-positive period `-1` and the non-empty
series `[1]`, `sma` does not fail fast: it returns a value list (of zeros),
refuting "sma likewise fails rather than producing output for a non-positive
period". -/
theorem sma_negative_period_counterexample :
    (-1 : Int) ≤ 0 ∧ sma [(1 : ℚ)] (-1) = .ok [some 0] := by
  constructor
  · decide
  · norm_num [sma, smaAux]

/-- Auxiliary: for a negative period the window is emptied on every step and
`sum([])/period = 0`, so `smaAux` returns a list of zeros with no error. -/
theorem smaAux_neg (period : Int) (hp : period < 0) :
    ∀ l : List ℚ, smaAux period [] l = .ok (l.map fun _ => (some 0 : Option ℚ)) := by
  intro l
  induction l with
  | nil => rfl
  | cons v rest ih =>
    rw [smaAux]
    simp only [List.nil_append, List.length_cons, List.length_nil, List.tail_cons]
    split_ifs with h1 h2 h3 h4 h5
    · exfalso; simp only [List.length_nil] at h2; omega
    · exfalso; omega
    · rw [ih]; simp
    · exfalso; omega
    · exfalso; omega
    · exfalso; omega

/-- C9 (amended): `ema` fails fast for every period `<= 0`; `sma` fails
(ZeroDivisionError) for period `= 0` on any non-empty input, but for a
negative period it produces a list of zeros instead of failing. -/
theorem period_validation_amended :
    (∀ (values : List ℚ) (period : Int), period ≤ 0 →
      ema values period = .error "ValueError: period must be > 0") ∧
    (∀ (v : ℚ) (rest : List ℚ),
      sma (v :: rest) 0 = .error "ZeroDivisionError: division by zero") ∧
    (∀ (values : List ℚ) (period : Int), period < 0 →
      sma values period = .ok (values.map fun _ => some 0)) := by
  refine ⟨?_, ?_, ?_⟩
  · intro values period hp
    unfold ema
    rw [if_pos hp]
  · intro v rest
    rw [sma, smaAux]
    simp only [List.nil_append, List.length_cons, List.length_nil, List.tail_cons]
    split_ifs with h1 h2 h3
    · exfalso; simp only [List.length_nil] at h2; omega
    · rfl
    · exfalso; omega
    · exfalso; omega
  · intro values period hp
    exact smaAux_neg period hp values

/-- Witness for `period_validation_amended` at concrete inputs. -/
theorem period_validation_amended_witness :
    ema [(3 : ℚ)] 0 = .error "ValueError: period must be > 0" ∧
    sma [(3 : ℚ)] 0 = .error "ZeroDivisionError: division by zero" ∧
    sma [(3 : ℚ), 4] (-2) = .ok [some 0, some 0] := by
  refine ⟨period_validation_amended.1 [(3:ℚ)] 0 (by omega), ?_, ?_⟩
  · exact period_validation_amended.2.1 3 []
  · have h := period_validation_amended.2.2 [(3:ℚ), 4] (-2) (by omega)
    simpa using h

/-- Auxiliary: the length of `emaAux` output equals the length of its input. -/
theorem emaAux_length (full : List ℚ) (p : Nat) (k : ℚ) :
    ∀ (l : List ℚ) (i : Nat) (prev : Option ℚ), (emaAux full p k l i prev).length = l.length := by
  intro l
  induction l with
  | nil => intro i prev; rfl
  | cons v rest ih =>
    intro i prev
    rw [emaAux.eq_def]
    simp only
    split_ifs <;> simp [ih]

/-- Auxiliary: past the seed index, `emaAux` produces the closed form. -/
theorem emaAux_get_post (full : List ℚ) (p : Nat) (k : ℚ) (hp : 0 < p) :
    ∀ (j i : Nat), p ≤ i → j < (full.drop i).length →
      (emaAux full p k (full.drop i) i (some (emaFrom full p k (i - p))))[j]?
        = some (some (emaFrom full p k (i - p + (j + 1)))) := by
  intro j
  induction j with
  | zero =>
    intro i hpi hlen
    cases hd : full.drop i with
    | nil => rw [hd] at hlen; simp at hlen
    | cons v rest =>
      have hv : full.getD i 0 = v := by
        have h0 : full[i]? = some v := by
          have := List.getElem?_drop full i 0
          rw [hd] at this
          simpa using this.symm
        rw [List.getD_eq_getElem?_getD, h0]; rfl
      rw [emaAux.eq_def]
      simp only
      rw [if_neg (by omega : ¬ i < p - 1), if_neg (by omega : ¬ i = p - 1)]
      simp only [List.getElem?_cons_zero, Option.some.injEq]
      rw [show i - p + (0 + 1) = (i - p) + 1 by omega, emaFrom]
      rw [show p + (i - p) = i by omega, hv]
  | succ j ihj =>
    intro i hpi hlen
    cases hd : full.drop i with
    | nil => rw [hd] at hlen; simp at hlen
    | cons v rest =>
      have hv : full.getD i 0 = v := by
        have h0 : full[i]? = some v := by
          have := List.getElem?_drop full i 0
          rw [hd] at this
          simpa using this.symm
        rw [List.getD_eq_getElem?_getD, h0]; rfl
      have hrest : rest = full.drop (i + 1) := by
        have := List.tail_drop full i
        rw [hd] at this
        simpa using this
      have hcurr : v * k + emaFrom full p k (i - p) * (1 - k) = emaFrom full p k ((i + 1) - p) := by
        rw [show (i + 1) - p = (i - p) + 1 by omega, emaFrom]
        rw [show p + (i - p) = i by omega, hv]
      rw [emaAux.eq_def]
      simp only
      rw [if_neg (by omega : ¬ i < p - 1), if_neg (by omega : ¬ i = p - 1)]
      simp only [List.getElem?_cons_succ]
      rw [hrest, hcurr]
      have := ihj (i + 1) (by omega) (by rw [← hrest]; rw [hd] at hlen; simpa using hlen)
      rw [this]
      rw [show (i + 1) - p + (j + 1) = i - p + (j + 1 + 1) by omega]

/-- Auxiliary: full characterization of `emaAux` started at or before the seed
index: `None` before the seed, the closed form from the seed on. -/
theorem emaAux_get_pre (full : List ℚ) (p : Nat) (k : ℚ) (hp : 0 < p) :
    ∀ (j i : Nat) (prev : Option ℚ), i ≤ p - 1 → j < (full.drop i).length →
      (emaAux full p k (full.drop i) i prev)[j]?
        = if i + j < p - 1 then some none
          else some (some (emaFrom full p k (i + j - (p - 1)))) := by
  intro j
  induction j with
  | zero =>
    intro i prev hip hlen
    cases hd : full.drop i with
    | nil => rw [hd] at hlen; simp at hlen
    | cons v rest =>
      rw [emaAux.eq_def]
      simp only
      by_cases hlt : i < p - 1
      · rw [if_pos hlt]
        simp only [List.getElem?_cons_zero]
        rw [if_pos (by omega)]
      · have hieq : i = p - 1 := by omega
        rw [if_neg hlt, if_pos hieq]
        simp only [List.getElem?_cons_zero]
        rw [if_neg (by omega)]
        rw [show i + 0 - (p - 1) = 0 by omega, emaFrom]
  | succ j ihj =>
    intro i prev hip hlen
    cases hd : full.drop i with
    | nil => rw [hd] at hlen; simp at hlen
    | cons v rest =>
      have hrest : rest = full.drop (i + 1) := by
        have := List.tail_drop full i
        rw [hd] at this
        simpa using this
      have hlen' : j < (full.drop (i + 1)).length := by
        rw [← hrest]; rw [hd] at hlen; simpa using hlen
      rw [emaAux.eq_def]
      simp only
      by_cases hlt : i < p - 1
      · rw [if_pos hlt]
        simp only [List.getElem?_cons_succ]
        rw [hrest, ihj (i + 1) prev (by omega) hlen']
        by_cases hc : i + (j + 1) < p - 1
        · rw [if_pos (by omega : i + 1 + j < p - 1), if_pos hc]
        · rw [if_neg (by omega : ¬ i + 1 + j < p - 1), if_neg hc]
          rw [show i + 1 + j - (p - 1) = i + (j + 1) - (p - 1) by omega]
      · have hieq : i = p - 1 := by omega
        rw [if_neg hlt, if_pos hieq]
        simp only [List.getElem?_cons_succ]
        have hpost := emaAux_get_post full p k hp j (i + 1) (by omega) hlen'
        have hprev : emaFrom full p k ((i + 1) - p) = (full.take p).sum / (p : ℚ) := by
          rw [show (i + 1) - p = 0 by omega, emaFrom]
        rw [hrest]
        rw [← hprev, hpost]
        rw [if_neg (by omega : ¬ i + (j + 1) < p - 1)]
        rw [show (i + 1) - p + (j + 1) = i + (j + 1) - (p - 1) by omega]

/-- Auxiliary: `ema` with a positive period succeeds and its output is `None`
before index `p-1` and the closed form `emaFrom` from index `p-1` on. -/
theorem ema_ok_get (S : List ℚ) (p : Nat) (hp : 0 < p) :
    ∃ out, ema S (p : Int) = .ok out ∧ out.length = S.length ∧
      ∀ j, j < S.length →
        out[j]? = if j < p - 1 then some none
          else some (some (emaFrom S p (2 / ((p : ℚ) + 1)) (j - (p - 1)))) := by
  rw [ema, if_neg (by omega : ¬ (p : Int) ≤ 0)]
  refine ⟨_, rfl, ?_, ?_⟩
  · rw [emaAux_length]
  · intro j hj
    have hcast : (((p : Int) : ℚ)) = (p : ℚ) := by push_cast; ring
    have htn : (p : Int).toNat = p := Int.toNat_natCast p
    rw [htn, hcast]
    have := emaAux_get_pre S p (2 / ((p : ℚ) + 1)) hp j 0 none (by omega) (by simpa using hj)
    simpa using this

/-- Auxiliary: for a non-zero period `smaAux` never errors and preserves the
input length. -/
theorem smaAux_ok (period : Int) (hp : period ≠ 0) :
    ∀ (l w : List ℚ), ∃ out, smaAux period w l = .ok out ∧ out.length = l.length := by
  intro l
  induction l with
  | nil => intro w; exact ⟨[], rfl, rfl⟩
  | cons v rest ih =>
    intro w
    rw [smaAux]
    split_ifs with h1 h2 h3
    all_goals first
      | exact absurd (by assumption : period = 0) hp
      | (obtain ⟨o, ho, hl⟩ := ih ((w ++ [v]).tail); rw [ho]; exact ⟨_, rfl, by simp [hl]⟩)
      | (obtain ⟨o, ho, hl⟩ := ih (w ++ [v]); rw [ho]; exact ⟨_, rfl, by simp [hl]⟩)

/-- Auxiliary: with window `S.take m` and remaining input `S.drop m`, `smaAux`
with positive period `p` succeeds and its output carries the first full-window
mean `(S.take p).sum / p` at index `p - 1 - m`. -/
theorem smaAux_seed (p : Nat) (hp : 0 < p) (S : List ℚ) (hS : p ≤ S.length) :
    ∀ (d m : Nat), m < p → d = p - 1 - m →
      ∃ out, smaAux (p : Int) (S.take m) (S.drop m) = .ok out ∧
        out[p - 1 - m]? = some (some ((S.take p).sum / (p : ℚ))) := by
  intro d
  induction d with
  | zero =>
    intro m hm hd
    cases hcons : S.drop m with
    | nil =>
      exfalso
      have hld := List.length_drop m S
      rw [hcons] at hld
      simp at hld
      omega
    | cons v rest =>
      have hv : S[m]? = some v := by
        have := List.getElem?_drop S m 0
        rw [hcons] at this
        simpa using this.symm
      have htake : S.take m ++ [v] = S.take (m + 1) := by
        rw [List.take_succ, hv]; rfl
      have htakep : S.take (m + 1) = S.take p := by rw [show m + 1 = p by omega]
      have hlen1 : (S.take (m + 1)).length = p := by
        rw [htakep, List.length_take]; omega
      have hcast : (((p : Int)) : ℚ) = (p : ℚ) := by push_cast; ring
      rw [smaAux]
      rw [htake]
      rw [if_neg (by rw [hlen1]; omega : ¬ (((S.take (m + 1)).length : Int) > (p : Int)))]
      rw [if_neg (by rw [hlen1]; omega : ¬ (((S.take (m + 1)).length : Int) < (p : Int)))]
      rw [if_neg (by omega : ¬ ((p : Int) = 0))]
      obtain ⟨o, ho, _⟩ := smaAux_ok (p : Int) (by omega) rest (S.take (m + 1))
      rw [ho]
      refine ⟨_, rfl, ?_⟩
      rw [show p - 1 - m = 0 by omega]
      rw [htakep, hcast]
      simp
  | succ d ihd =>
    intro m hm hd
    cases hcons : S.drop m with
    | nil =>
      exfalso
      have hld := List.length_drop m S
      rw [hcons] at hld
      simp at hld
      omega
    | cons v rest =>
      have hv : S[m]? = some v := by
        have := List.getElem?_drop S m 0
        rw [hcons] at this
        simpa using this.symm
      have htake : S.take m ++ [v] = S.take (m + 1) := by
        rw [List.take_succ, hv]; rfl
      have hlen1 : (S.take (m + 1)).length = m + 1 := by
        rw [List.length_take]; omega
      have hrest : rest = S.drop (m + 1) := by
        have := List.tail_drop S m
        rw [hcons] at this
        simpa using this
      rw [smaAux]
      rw [htake]
      rw [if_neg (by rw [hlen1]; omega : ¬ (((S.take (m + 1)).length : Int) > (p : Int)))]
      rw [if_pos (by rw [hlen1]; omega : (((S.take (m + 1)).length : Int) < (p : Int)))]
      rw [hrest]
      obtain ⟨out, ho, hg⟩ := ihd (m + 1) (by omega) (by omega)
      rw [ho]
      refine ⟨none :: out, rfl, ?_⟩
      rw [show p - 1 - m = (p - 1 - (m + 1)) + 1 by omega]
      simpa using hg

/-- Auxiliary: `sma` with positive period `p ≤ len` succeeds, preserves the
length, and its entry at index `p - 1` is the mean of the first `p` samples. -/
theorem sma_ok_seed (S : List ℚ) (p : Nat) (hp : 0 < p) (hS : p ≤ S.length) :
    ∃ out, sma S (p : Int) = .ok out ∧ out.length = S.length ∧
      out[p - 1]? = some (some ((S.take p).sum / (p : ℚ))) := by
  obtain ⟨out, ho, hg⟩ := smaAux_seed p hp S hS (p - 1) 0 (by omega) (by omega)
  rw [List.take_zero, List.drop_zero] at ho
  obtain ⟨out2, ho2, hl⟩ := smaAux_ok (p : Int) (by omega) S []
  rw [ho] at ho2
  injection ho2 with h
  subst h
  refine ⟨out, by rw [sma]; exact ho, hl, by simpa using hg⟩

/-- C7: for every price series `S` and period `p > 0` with `len S >= p`, the
EMA output is `None` before index `p-1`, equals the SMA (the mean of the first
`p` samples) at index `p-1`, and from there on satisfies
`ema[i] = S[i]*k + ema[i-1]*(1-k)` with `k = 2/(p+1)`. -/
theorem ema_seed_and_recurrence (S : List ℚ) (p : Nat) (hp : 0 < p) (hS : p ≤ S.length) :
    ∃ out sout, ema S (p : Int) = .ok out ∧ sma S (p : Int) = .ok sout ∧
      (∀ i, i < p - 1 → out[i]? = some none) ∧
      out[p - 1]? = some (some ((S.take p).sum / (p : ℚ))) ∧
      out[p - 1]? = sout[p - 1]? ∧
      (∀ i, p - 1 < i → i < S.length →
        ∃ e ep, out[i]? = some (some e) ∧ out[i - 1]? = some (some ep) ∧
          e = S.getD i 0 * (2 / ((p : ℚ) + 1)) + ep * (1 - 2 / ((p : ℚ) + 1))) := by
  obtain ⟨out, hema, hlen, hget⟩ := ema_ok_get S p hp
  obtain ⟨sout, hsma, hslen, hsget⟩ := sma_ok_seed S p hp hS
  have hseed : out[p - 1]? = some (some ((S.take p).sum / (p : ℚ))) := by
    rw [hget (p - 1) (by omega), if_neg (by omega)]
    rw [show p - 1 - (p - 1) = 0 by omega]
    rfl
  refine ⟨out, sout, hema, hsma, ?_, hseed, ?_, ?_⟩
  · intro i hi
    rw [hget i (by omega), if_pos hi]
  · rw [hseed, hsget]
  · intro i h1 h2
    refine ⟨emaFrom S p (2 / ((p : ℚ) + 1)) (i - (p - 1)),
            emaFrom S p (2 / ((p : ℚ) + 1)) (i - 1 - (p - 1)), ?_, ?_, ?_⟩
    · rw [hget i h2, if_neg (by omega)]
    · rw [hget (i - 1) (by omega), if_neg (by omega)]
    · rw [show i - (p - 1) = (i - p) + 1 by omega, emaFrom]
      rw [show p + (i - p) = i by omega, show i - 1 - (p - 1) = i - p by omega]

/-- Witness for `ema_seed_and_recurrence` at the concrete series `[1, 2, 3]`
with period `2`. -/
theorem ema_seed_and_recurrence_witness :
    ∃ out sout, ema [(1 : ℚ), 2, 3] ((2 : Nat) : Int) = .ok out ∧
      sma [(1 : ℚ), 2, 3] ((2 : Nat) : Int) = .ok sout ∧
      (∀ i, i < 2 - 1 → out[i]? = some none) ∧
      out[2 - 1]? = some (some (([(1 : ℚ), 2, 3].take 2).sum / ((2 : Nat) : ℚ))) ∧
      out[2 - 1]? = sout[2 - 1]? ∧
      (∀ i, 2 - 1 < i → i < [(1 : ℚ), 2, 3].length →
        ∃ e ep, out[i]? = some (some e) ∧ out[i - 1]? = some (some ep) ∧
          e = [(1 : ℚ), 2, 3].getD i 0 * (2 / (((2 : Nat) : ℚ) + 1)) +
            ep * (1 - 2 / (((2 : Nat) : ℚ) + 1))) :=
  ema_seed_and_recurrence [(1 : ℚ), 2, 3] 2 (by omega) (by norm_num)

/-- C6: with positive price, step and configured minimum notional, the open
quantity is deterministic in the relevant inputs, an exact integer multiple of
the step, satisfies `price * qty >= min_notional`, and is computed by flooring
`notional/price` to the step and, when below the minimum, raising to
`ceil(min_notional/price)` snapped up to the step. -/
theorem notional_and_qty_spec (st : EngineState) (price mn : ℚ)
    (hprice : 0 < price) (hstep : 0 < st.step_size)
    (hmn : st.minNotional = some mn) (hmn0 : 0 < mn) :
    (∀ st2 : EngineState, st2.initial_balance = st.initial_balance →
      st2.percent = st.percent → st2.leverage = st.leverage →
      st2.step_size = st.step_size → st2.minNotional = st.minNotional →
      notional_and_qty st2 price = notional_and_qty st price) ∧
    (∃ n : ℤ, (notional_and_qty st price).2 = (n : ℚ) * st.step_size) ∧
    mn ≤ price * (notional_and_qty st price).2 ∧
    (notional_and_qty st price).2 =
      (if price * floor_to_step (st.initial_balance * st.percent * st.leverage / price)
            st.step_size < mn
       then ceil_to_step (mn / price) st.step_size
       else floor_to_step (st.initial_balance * st.percent * st.leverage / price)
            st.step_size) := by
  have hstepeq : pyOr st.step_size (1 / 1000) = st.step_size := by
    unfold pyOr
    rw [if_neg (ne_of_gt hstep)]
  have hq2 : (notional_and_qty st price).2 =
      (if price * floor_to_step (st.initial_balance * st.percent * st.leverage / price)
            st.step_size < mn
       then ceil_to_step (mn / price) st.step_size
       else floor_to_step (st.initial_balance * st.percent * st.leverage / price)
            st.step_size) := by
    simp only [notional_and_qty, hmn, hstepeq]
    rw [if_pos hstep, if_pos hmn0]
  refine ⟨?_, ?_, ?_, hq2⟩
  · intro st2 h1 h2 h3 h4 h5
    unfold notional_and_qty
    rw [h1, h2, h3, h4, h5]
  · rw [hq2]
    by_cases hc : price * floor_to_step (st.initial_balance * st.percent * st.leverage / price)
        st.step_size < mn
    · rw [if_pos hc]
      exact ⟨⌈mn / price / st.step_size⌉, rfl⟩
    · rw [if_neg hc]
      exact ⟨⌊st.initial_balance * st.percent * st.leverage / price / st.step_size⌋, rfl⟩
  · rw [hq2]
    by_cases hc : price * floor_to_step (st.initial_balance * st.percent * st.leverage / price)
        st.step_size < mn
    · rw [if_pos hc]
      have hle : mn / price ≤ ceil_to_step (mn / price) st.step_size := by
        unfold ceil_to_step
        have h1 : mn / price / st.step_size ≤ (⌈mn / price / st.step_size⌉ : ℚ) :=
          Int.le_ceil _
        have h2 := mul_le_mul_of_nonneg_right h1 (le_of_lt hstep)
        rwa [div_mul_cancel₀ _ (ne_of_gt hstep)] at h2
      calc mn = price * (mn / price) := by field_simp
        _ ≤ price * ceil_to_step (mn / price) st.step_size :=
            mul_le_mul_of_nonneg_left hle (le_of_lt hprice)
    · rw [if_neg hc]
      linarith

/-- Witness for `notional_and_qty_spec` at a concrete state and price. -/
theorem notional_and_qty_spec_witness :
    (∃ n : ℤ, (notional_and_qty testState 20000).2 = (n : ℚ) * testState.step_size) ∧
    (5 : ℚ) ≤ 20000 * (notional_and_qty testState 20000).2 :=
  ⟨(notional_and_qty_spec testState 20000 5 (by norm_num)
      (by norm_num [testState]) rfl (by norm_num)).2.1,
   (notional_and_qty_spec testState 20000 5 (by norm_num)
      (by norm_num [testState]) rfl (by norm_num)).2.2.1⟩

/-- C1 (code bug, evaluated at the failing input): live mode, locally flat,
final candle completing a golden cross, position query failing transiently
(the exchange may hold a SHORT — `get_futures_position` returns `None` on any
request error).  The engine submits five opening LONG market orders (one per
confirm retry) and not a single close order: the opposing-position check of
trading.py:633 raises `TypeError` because `get_futures_position` has no
`prefer_side` parameter, and the `except` handler opens directly. -/
theorem naked_open_at_failing_input :
    (on_realtime_kline c1State c1Oracle c1Kline).actions =
      [Action.openAttempt .long, Action.openOrder .long,
       Action.openAttempt .long, Action.openOrder .long,
       Action.openAttempt .long, Action.openOrder .long,
       Action.openAttempt .long, Action.openOrder .long,
       Action.openAttempt .long, Action.openOrder .long] ∧
    (on_realtime_kline c1State c1Oracle c1Kline).err = none := by
  norm_num +decide [on_realtime_kline, advance_series, post_advance, decision_phase, update_cross_tag, trim_series_if_needed, recalc_indicators,
      append_or_replace, ema, emaAux, sma, smaAux, crossover, defaultEps,
      is_rising, manual_sync, takePos, trade_logic, get_futures_position_prefer,
      open_with_confirm, open_with_confirm_aux, open_position, takeOrder,
      orderFill, order_success, statusFilled, applyOpenFill, notional_and_qty,
      floor_to_step, ceil_to_step, pyOr, pyOrOpt, testState, c1State, c1Oracle,
      c1Kline, Side.toTradeSide, takeLast, Int.toNat_ofNat]

set_option maxHeartbeats 2000000 in
/-- C2 counterexample: simulated engine, flat, slope filter enabled, final
candle at price 3 completing a golden cross while the EMA over the trailing
window has been falling (8, 6, 4: `is_rising` is false) and the price is below
both the current EMA (4) and the current SMA (4) — an open-LONG is attempted
anyway, refuting the claimed gating. -/
theorem open_despite_filters_counterexample :
    c2State.use_slope = true ∧
    c2State.position.side = none ∧
    (on_realtime_kline c2State ⟨[], []⟩ c2Kline).actions = [Action.openAttempt .long] ∧
    is_rising (on_realtime_kline c2State ⟨[], []⟩ c2Kline).state.ema_list 3 = false ∧
    (on_realtime_kline c2State ⟨[], []⟩ c2Kline).state.ema_list.getLast? = some (some 4) ∧
    (on_realtime_kline c2State ⟨[], []⟩ c2Kline).state.ma_list.getLast? = some (some 4) ∧
    c2Kline.close < 4 := by
  have ht2 : (2 : Int).toNat = 2 := rfl
  have ht3 : (3 : Int).toNat = 3 := rfl
  norm_num +decide [ht2, ht3, on_realtime_kline, advance_series, post_advance, decision_phase, update_cross_tag, trim_series_if_needed, recalc_indicators,
      append_or_replace, ema, emaAux, sma, smaAux, crossover, defaultEps,
      is_rising, manual_sync, takePos, trade_logic, get_futures_position_prefer,
      open_with_confirm, open_with_confirm_aux, open_position, takeOrder,
      orderFill, order_success, statusFilled, applyOpenFill, notional_and_qty,
      floor_to_step, ceil_to_step, pyOr, pyOrOpt, testState, c2State,
      c2Kline, Side.toTradeSide, takeLast, Int.toNat_ofNat]

set_option maxHeartbeats 2000000 in
/-- C8 counterexample: with `use_closed_only` enabled, a non-final tick in
live mode with a manually opened exchange SHORT adopts that position into
local state (trading.py:597-616), so more than the live price and the
unclosed-candle view changes. -/
theorem intraday_adoption_counterexample :
    c8State.use_closed_only = true ∧
    c8Kline.is_final = false ∧
    c8State.position.side = none ∧
    (on_realtime_kline c8State c8Oracle c8Kline).state.position.side = some .short := by
  have ht2 : (2 : Int).toNat = 2 := rfl
  have ht3 : (3 : Int).toNat = 3 := rfl
  norm_num +decide [ht2, ht3, on_realtime_kline, advance_series, post_advance, decision_phase, update_cross_tag, trim_series_if_needed, recalc_indicators,
    append_or_replace, ema, emaAux, sma, smaAux, crossover, defaultEps,
    is_rising, manual_sync, takePos, trade_logic, get_futures_position_prefer,
    pyOr, pyOrOpt, testState, c2State, c8State, c8Kline, c8Oracle, takeLast, Int.toNat_ofNat]

theorem tradeFrame_refl (a : EngineState) : tradeFrame a a :=
  ⟨rfl, rfl, rfl, rfl, rfl, rfl, rfl, rfl, rfl, rfl, rfl, rfl, rfl⟩

theorem tradeFrame_trans {a b c : EngineState}
    (h1 : tradeFrame a b) (h2 : tradeFrame b c) : tradeFrame a c := by
  obtain ⟨a1, a2, a3, a4, a5, a6, a7, a8, a9, a10, a11, a12, a13⟩ := h1
  obtain ⟨b1, b2, b3, b4, b5, b6, b7, b8, b9, b10, b11, b12, b13⟩ := h2
  exact ⟨a1.trans b1, a2.trans b2, a3.trans b3, a4.trans b4, a5.trans b5,
    a6.trans b6, a7.trans b7, a8.trans b8, a9.trans b9, a10.trans b10,
    a11.trans b11, a12.trans b12, a13.trans b13⟩

theorem applyOpenFill_frame (st : EngineState) (s : Side) (a b : ℚ) :
    tradeFrame (applyOpenFill st s a b) st := by
  simp [tradeFrame, applyOpenFill]

theorem applyCloseFill_frame (st : EngineState) (s : Side) (e f a b : ℚ) :
    tradeFrame (applyCloseFill st s e f a b) st := by
  simp [tradeFrame, applyCloseFill]

theorem open_position_frame (st : EngineState) (o : Oracle) (side : Side) (price : ℚ) :
    tradeFrame (open_position st o side price).state st := by
  simp only [open_position]
  split
  · split
    · exact tradeFrame_refl st
    · split
      · exact applyOpenFill_frame st side _ _
      · exact tradeFrame_refl st
  · exact applyOpenFill_frame st side _ _

theorem close_position_frame (st : EngineState) (o : Oracle) (price : ℚ) :
    tradeFrame (close_position st o price).state st := by
  simp only [close_position]
  split
  · split
    · split
      · exact tradeFrame_refl st
      · split
        · exact applyCloseFill_frame st _ _ _ _ _
        · exact tradeFrame_refl st
    · exact applyCloseFill_frame st _ _ _ _ _
  · exact tradeFrame_refl st

theorem open_with_confirm_aux_frame (side : Side) (price : ℚ) :
    ∀ (n : Nat) (st : EngineState) (o : Oracle),
      tradeFrame (open_with_confirm_aux side price n st o).state st := by
  intro n
  induction n with
  | zero => intro st o; exact tradeFrame_refl st
  | succ n ih =>
    intro st o
    rw [open_with_confirm_aux]
    split
    · exact tradeFrame_trans (ih _ _) (open_position_frame st o side price)
    · split
      · exact tradeFrame_trans (ih _ _) (open_position_frame st o side price)
      · exact open_position_frame st o side price

theorem close_with_confirm_aux_frame (price : ℚ) :
    ∀ (n : Nat) (st : EngineState) (o : Oracle),
      tradeFrame (close_with_confirm_aux price n st o).state st := by
  intro n
  induction n with
  | zero => intro st o; exact tradeFrame_refl st
  | succ n ih =>
    intro st o
    rw [close_with_confirm_aux]
    split
    · exact tradeFrame_trans (ih _ _) (close_position_frame st o price)
    · split
      · exact tradeFrame_trans (ih _ _) (close_position_frame st o price)
      · exact close_position_frame st o price

theorem open_with_confirm_frame (st : EngineState) (o : Oracle) (side : Side) (price : ℚ) :
    tradeFrame (open_with_confirm st o side price).state st :=
  open_with_confirm_aux_frame side price 5 st o

theorem close_with_confirm_frame (st : EngineState) (o : Oracle) (s : Side) (price : ℚ) :
    tradeFrame (close_with_confirm st o s price).state st :=
  close_with_confirm_aux_frame price 5 st o

theorem manual_sync_frame (st : EngineState) (o : Oracle) (price : ℚ) :
    tradeFrame (manual_sync st o price).1 st := by
  simp only [manual_sync]
  split
  · split
    · split
      · split
        · simp [tradeFrame]
        · exact tradeFrame_refl st
      · exact tradeFrame_refl st
    · exact tradeFrame_refl st
  · exact tradeFrame_refl st

theorem trade_logic_frame (st : EngineState) (o : Oracle) (k : Kline)
    (cross : CrossSignal) (price : ℚ) :
    tradeFrame (trade_logic st o k cross price).1 st := by
  simp only [trade_logic]
  split
  · split
    · split
      · split
        · exact open_with_confirm_frame _ _ _ _
        · exact tradeFrame_refl st
      · exact open_with_confirm_frame _ _ _ _
    · split
      · split
        · split
          · exact open_with_confirm_frame _ _ _ _
          · exact tradeFrame_refl st
        · exact open_with_confirm_frame _ _ _ _
      · exact tradeFrame_refl st
  · split
    · split
      · split
        · split
          · exact tradeFrame_trans (open_with_confirm_frame _ _ _ _)
              (close_with_confirm_frame _ _ _ _)
          · exact close_with_confirm_frame _ _ _ _
        · exact tradeFrame_refl st
      · split
        · exact tradeFrame_trans (open_with_confirm_frame _ _ _ _)
            (close_with_confirm_frame _ _ _ _)
        · exact close_with_confirm_frame _ _ _ _
    · exact tradeFrame_refl st
  · split
    · split
      · split
        · split
          · exact tradeFrame_trans (open_with_confirm_frame _ _ _ _)
              (close_with_confirm_frame _ _ _ _)
          · exact close_with_confirm_frame _ _ _ _
        · exact tradeFrame_refl st
      · split
        · exact tradeFrame_trans (open_with_confirm_frame _ _ _ _)
            (close_with_confirm_frame _ _ _ _)
        · exact close_with_confirm_frame _ _ _ _
    · exact tradeFrame_refl st

/-- C3: a live open or close attempt whose exchange order call yields an error
response, a response with no positive executed quantity and a status other
than FILLED, a missing response, or an exception, returns failure and performs
no local mutation: the returned state (hence Position, balance, trades table,
wallet table and position table) is exactly the pre-attempt state. -/
theorem order_failure_no_mutation (st : EngineState) (o : Oracle) (side : Side)
    (price : ℚ) (res : OrderOutcome)
    (hlive : st.test_mode = false) (hc : st.has_client = true)
    (hres : o.orderResps.head? = some res)
    (hfail : order_success res = false) :
    ((open_position st o side price).ok = false ∧
      (open_position st o side price).state = st) ∧
    ((close_position st o price).ok = false ∧
      (close_position st o price).state = st) := by
  have hcond : (!st.test_mode && st.has_client) = true := by
    rw [hlive, hc]; rfl
  obtain ⟨t, ht⟩ : ∃ t, o.orderResps = res :: t := by
    cases ho : o.orderResps with
    | nil => rw [ho] at hres; simp at hres
    | cons a u =>
      rw [ho] at hres
      simp at hres
      exact ⟨u, by rw [hres]⟩
  constructor
  · rcases res with _ | _ | _ | ⟨a, c, e, s⟩ <;>
      simp [open_position, hcond, takeOrder, ht, orderFill, hfail]
  · rcases hps : st.position.side with _ | sd
    · simp [close_position, hps]
    rcases hpe : st.position.entry_price with _ | en
    · simp [close_position, hps, hpe]
    rcases hpq : st.position.qty with _ | q
    · simp [close_position, hps, hpe, hpq]
    rcases res with _ | _ | _ | ⟨a, c, e, s⟩ <;>
      simp [close_position, hps, hpe, hpq, hcond, takeOrder, ht, orderFill, hfail]

/-- Witness for `order_failure_no_mutation`: a live state with an error
response to the order call. -/
theorem order_failure_no_mutation_witness :
    ((open_position c1State ⟨[], [.err]⟩ .long 4).ok = false ∧
      (open_position c1State ⟨[], [.err]⟩ .long 4).state = c1State) ∧
    ((close_position c1State ⟨[], [.err]⟩ 4).ok = false ∧
      (close_position c1State ⟨[], [.err]⟩ 4).state = c1State) :=
  order_failure_no_mutation c1State ⟨[], [.err]⟩ .long 4 .err rfl rfl rfl rfl

theorem posInv_applyOpenFill (st : EngineState) (s : Side) (a b : ℚ) :
    PosInv (applyOpenFill st s a b).position := by
  simp [PosInv, applyOpenFill]

theorem posInv_applyCloseFill (st : EngineState) (s : Side) (e f a b : ℚ) :
    PosInv (applyCloseFill st s e f a b).position := by
  simp [PosInv, applyCloseFill]

theorem posInv_open_position (st : EngineState) (o : Oracle) (side : Side)
    (price : ℚ) (h : PosInv st.position) :
    PosInv (open_position st o side price).state.position := by
  simp only [open_position]
  split
  · split
    · exact h
    · split
      · exact posInv_applyOpenFill st side _ _
      · exact h
  · exact posInv_applyOpenFill st side _ _

theorem posInv_close_position (st : EngineState) (o : Oracle) (price : ℚ)
    (h : PosInv st.position) :
    PosInv (close_position st o price).state.position := by
  simp only [close_position]
  split
  · split
    · split
      · exact h
      · split
        · exact posInv_applyCloseFill st _ _ _ _ _
        · exact h
    · exact posInv_applyCloseFill st _ _ _ _ _
  · exact h

theorem posInv_open_with_confirm_aux (side : Side) (price : ℚ) :
    ∀ (n : Nat) (st : EngineState) (o : Oracle), PosInv st.position →
      PosInv (open_with_confirm_aux side price n st o).state.position := by
  intro n
  induction n with
  | zero => intro st o h; exact h
  | succ n ih =>
    intro st o h
    rw [open_with_confirm_aux]
    split
    · exact ih _ _ (posInv_open_position st o side price h)
    · split
      · exact ih _ _ (posInv_open_position st o side price h)
      · exact posInv_open_position st o side price h

theorem posInv_close_with_confirm_aux (price : ℚ) :
    ∀ (n : Nat) (st : EngineState) (o : Oracle), PosInv st.position →
      PosInv (close_with_confirm_aux price n st o).state.position := by
  intro n
  induction n with
  | zero => intro st o h; exact h
  | succ n ih =>
    intro st o h
    rw [close_with_confirm_aux]
    split
    · exact ih _ _ (posInv_close_position st o price h)
    · split
      · exact ih _ _ (posInv_close_position st o price h)
      · exact posInv_close_position st o price h

theorem posInv_manual_sync (st : EngineState) (o : Oracle) (price : ℚ)
    (h : PosInv st.position) : PosInv (manual_sync st o price).1.position := by
  simp only [manual_sync]
  split
  · split
    · split
      · split
        · simp [PosInv]
        · exact h
      · exact h
    · exact h
  · exact h

theorem posInv_trade_logic (st : EngineState) (o : Oracle) (k : Kline)
    (cross : CrossSignal) (price : ℚ) (h : PosInv st.position) :
    PosInv (trade_logic st o k cross price).1.position := by
  simp only [trade_logic]
  split
  · split
    · split
      · split
        · exact posInv_open_with_confirm_aux _ _ _ _ _ h
        · exact h
      · exact posInv_open_with_confirm_aux _ _ _ _ _ h
    · split
      · split
        · split
          · exact posInv_open_with_confirm_aux _ _ _ _ _ h
          · exact h
        · exact posInv_open_with_confirm_aux _ _ _ _ _ h
      · exact h
  · split
    · split
      · split
        · split
          · exact posInv_open_with_confirm_aux _ _ _ _ _
              (posInv_close_with_confirm_aux _ _ _ _ h)
          · exact posInv_close_with_confirm_aux _ _ _ _ h
        · exact h
      · split
        · exact posInv_open_with_confirm_aux _ _ _ _ _
            (posInv_close_with_confirm_aux _ _ _ _ h)
        · exact posInv_close_with_confirm_aux _ _ _ _ h
    · exact h
  · split
    · split
      · split
        · split
          · exact posInv_open_with_confirm_aux _ _ _ _ _
              (posInv_close_with_confirm_aux _ _ _ _ h)
          · exact posInv_close_with_confirm_aux _ _ _ _ h
        · exact h
      · split
        · exact posInv_open_with_confirm_aux _ _ _ _ _
            (posInv_close_with_confirm_aux _ _ _ _ h)
        · exact posInv_close_with_confirm_aux _ _ _ _ h
    · exact h

theorem recalc_position_eq (st : EngineState) :
    (recalc_indicators st).1.position = st.position := by
  simp only [recalc_indicators]
  split
  · rfl
  · split
    · rfl
    · rfl

theorem trim_position_eq (st : EngineState) :
    (trim_series_if_needed st).1.position = st.position := by
  simp only [trim_series_if_needed]
  split
  · exact recalc_position_eq st
  · split
    · exact recalc_position_eq st
    · exact recalc_position_eq _

theorem advance_position_eq (st : EngineState) (k : Kline) :
    (advance_series st k).1.position = st.position := by
  simp only [advance_series]
  split
  · split
    · rw [trim_position_eq]
      simp [append_or_replace]
      split <;> rfl
    · rfl
  · rw [trim_position_eq]
    simp [append_or_replace]
    split <;> rfl

theorem update_cross_tag_position (st : EngineState) (cross : CrossSignal) :
    (update_cross_tag st cross).position = st.position := by
  simp only [update_cross_tag]
  split_ifs <;> rfl

theorem posInv_decision_phase (st : EngineState) (o : Oracle) (k : Kline)
    (cross : CrossSignal) (h : PosInv st.position) :
    PosInv (decision_phase st o k cross).state.position := by
  have hsync : PosInv (manual_sync (update_cross_tag st cross) o k.close).1.position := by
    apply posInv_manual_sync
    rw [update_cross_tag_position]
    exact h
  simp only [decision_phase]
  split
  · exact hsync
  · split
    · exact posInv_trade_logic _ _ _ _ _ hsync
    · exact posInv_trade_logic _ _ _ _ _ hsync

theorem posInv_post_advance (st : EngineState) (o : Oracle) (k : Kline)
    (h : PosInv st.position) :
    PosInv (post_advance st o k).state.position := by
  simp only [post_advance]
  split
  · exact h
  · exact h
  · split
    · exact posInv_decision_phase _ _ _ _ h
    · exact h

/-- C4: the Position invariant (`side == None` iff both entry price and
quantity are `None`) holds for the initial position and is preserved by every
operation that assigns the position: startup exchange sync, startup override,
database recovery, open, close, historical ingestion and realtime
processing. -/
theorem position_invariant :
    PosInv initPosition ∧
    (∀ p rp, PosInv p → PosInv (startup_sync_position p rp)) ∧
    (∀ p rp, PosInv p → PosInv (startup_override_position p rp)) ∧
    (∀ p posRow tradeRow lc, PosInv p →
      PosInv (restore_open_position p posRow tradeRow lc)) ∧
    (∀ st o side price, PosInv (EngineState.position st) →
      PosInv (open_position st o side price).state.position) ∧
    (∀ st o price, PosInv (EngineState.position st) →
      PosInv (close_position st o price).state.position) ∧
    (∀ st ks, PosInv (EngineState.position st) →
      PosInv (ingest_historical st ks).1.position) ∧
    (∀ st o k, PosInv (EngineState.position st) →
      PosInv (on_realtime_kline st o k).state.position) := by
  refine ⟨?_, ?_, ?_, ?_, posInv_open_position, posInv_close_position, ?_, ?_⟩
  · simp [PosInv, initPosition]
  · intro p rp h
    simp only [startup_sync_position]
    split
    · split
      · split
        · split
          · simp [PosInv]
          · exact h
        · exact h
      · exact h
    · exact h
  · intro p rp h
    simp only [startup_override_position]
    split
    · split
      · split
        · simp [PosInv]
        · exact h
      · exact h
    · exact h
  · intro p posRow tradeRow lc h
    simp only [restore_open_position]
    split
    · split
      · simp [PosInv]
      · exact h
    · split
      · split
        · exact h
        · split
          · simp [PosInv]
          · exact h
      · exact h
  · intro st ks h
    simp only [ingest_historical]
    rw [trim_position_eq]
    have : ∀ (l : List Kline) (s : EngineState), PosInv s.position →
        PosInv (l.foldl ingest_append s).position := by
      intro l
      induction l with
      | nil => intro s hs; exact hs
      | cons a t ih => intro s hs; exact ih _ hs
    exact this ks st h
  · intro st o k h
    simp only [on_realtime_kline]
    split
    · rw [advance_position_eq]; exact h
    · apply posInv_post_advance
      rw [advance_position_eq]
      exact h

/-- Witness for `position_invariant` at concrete inputs. -/
theorem position_invariant_witness :
    PosInv (open_position testState ⟨[], []⟩ .long 100).state.position ∧
    PosInv (on_realtime_kline c2State ⟨[], []⟩ c2Kline).state.position :=
  ⟨position_invariant.2.2.2.2.1 testState ⟨[], []⟩ .long 100
      (by simp [PosInv, testState]),
   position_invariant.2.2.2.2.2.2.2 c2State ⟨[], []⟩ c2Kline
      (by simp [PosInv, c2State, testState])⟩

theorem ema_ok_length (values : List ℚ) (p : Int) (hp : 0 < p) :
    ∃ out, ema values p = .ok out ∧ out.length = values.length := by
  rw [ema, if_neg (by omega)]
  exact ⟨_, rfl, emaAux_length _ _ _ _ _ _⟩

theorem sma_ok_length (values : List ℚ) (p : Int) (hp : p ≠ 0) :
    ∃ out, sma values p = .ok out ∧ out.length = values.length := by
  obtain ⟨out, ho, hl⟩ := smaAux_ok p hp values []
  exact ⟨out, ho, hl⟩

theorem recalc_ok (st : EngineState) (hema : 0 < st.ema_period)
    (hma : st.ma_period ≠ 0) :
    ∃ st', recalc_indicators st = (st', none) ∧
      st'.ema_list.length = st.closes.length ∧
      st'.ma_list.length = st.closes.length ∧
      st'.timestamps = st.timestamps ∧ st'.closes = st.closes ∧
      st'.series_maxlen = st.series_maxlen ∧ st'.position = st.position := by
  obtain ⟨el, hel, hlel⟩ := ema_ok_length st.closes st.ema_period hema
  obtain ⟨ml, hml, hlml⟩ := sma_ok_length st.closes st.ma_period hma
  refine ⟨{ st with ema_list := el, ma_list := ml }, ?_, hlel, hlml, rfl, rfl, rfl, rfl⟩
  simp only [recalc_indicators, hel, hml]

theorem takeLast_length (l : List α) (keep : Nat) :
    (takeLast l keep).length = l.length - (l.length - keep) := by
  simp [takeLast]

theorem trim_ok (st : EngineState) (hts : st.timestamps.length = st.closes.length)
    (hema : 0 < st.ema_period) (hma : st.ma_period ≠ 0) :
    ∃ st', trim_series_if_needed st = (st', none) ∧ SeriesInv st' ∧
      st'.position = st.position := by
  simp only [trim_series_if_needed]
  split
  · rename_i hml0
    obtain ⟨st', h1, h2, h3, h4, h5, h6, h7⟩ := recalc_ok st hema hma
    refine ⟨st', h1, ⟨?_, ?_, ?_, ?_⟩, h7⟩
    · rw [h4, h5]; exact hts
    · rw [h5, h2]
    · rw [h2, h3]
    · intro hpos; rw [h6] at hpos; omega
  · split
    · rename_i hml0 hn
      obtain ⟨st', h1, h2, h3, h4, h5, h6, h7⟩ := recalc_ok st hema hma
      refine ⟨st', h1, ⟨?_, ?_, ?_, ?_⟩, h7⟩
      · rw [h4, h5]; exact hts
      · rw [h5, h2]
      · rw [h2, h3]
      · intro hpos
        rw [h6, h4, h5, h2, h3]
        omega
    · rename_i hml0 hn
      set stT := { st with
        timestamps := takeLast st.timestamps st.series_maxlen.toNat
        closes := takeLast st.closes st.series_maxlen.toNat } with hstT
      have hlen1 : stT.timestamps.length = st.series_maxlen.toNat := by
        rw [hstT]
        simp only [takeLast_length]
        omega
      have hlen2 : stT.closes.length = st.series_maxlen.toNat := by
        rw [hstT]
        simp only [takeLast_length]
        omega
      obtain ⟨st', h1, h2, h3, h4, h5, h6, h7⟩ := recalc_ok stT hema hma
      refine ⟨st', h1, ⟨?_, ?_, ?_, ?_⟩, h7⟩
      · rw [h4, h5, hlen1, hlen2]
      · rw [h5, h2]
      · rw [h2, h3]
      · intro hpos
        rw [h6, h4, h5, h2, h3, hlen1, hlen2]
        have h6' : st'.series_maxlen = st.series_maxlen := h6
        omega

theorem append_or_replace_fields (st : EngineState) (t : Int) (p : ℚ) :
    (append_or_replace st t p).ema_period = st.ema_period ∧
    (append_or_replace st t p).ma_period = st.ma_period ∧
    (append_or_replace st t p).series_maxlen = st.series_maxlen ∧
    (append_or_replace st t p).position = st.position := by
  simp only [append_or_replace]
  split <;> exact ⟨rfl, rfl, rfl, rfl⟩

theorem append_or_replace_ts_len (st : EngineState) (t : Int) (p : ℚ)
    (hts : st.timestamps.length = st.closes.length) :
    (append_or_replace st t p).timestamps.length =
      (append_or_replace st t p).closes.length := by
  simp only [append_or_replace]
  split
  · simp [hts]
  · rename_i hcond
    have hlast : st.timestamps.getLast? = some t := by
      by_contra hne
      exact hcond hne
    have hne : st.timestamps ≠ [] := by
      intro h
      rw [h] at hlast
      simp at hlast
    have h0 : 0 < st.timestamps.length := List.length_pos.mpr hne
    simp [List.length_dropLast]
    omega

theorem advance_ok (st : EngineState) (k : Kline) (hInv : SeriesInv st)
    (hema : 0 < st.ema_period) (hma : st.ma_period ≠ 0) :
    ∃ st', advance_series st k = (st', none) ∧ SeriesInv st' ∧
      st'.position = st.position := by
  have hts := hInv.1
  have happ := append_or_replace_fields st k.close_time k.close
  have hts' := append_or_replace_ts_len st k.close_time k.close hts
  simp only [advance_series]
  split
  · split
    · obtain ⟨st', h1, h2, h3⟩ :=
        trim_ok _ hts' (by rw [happ.1]; exact hema) (by rw [happ.2.1]; exact hma)
      exact ⟨st', h1, h2, by rw [h3, happ.2.2.2]⟩
    · exact ⟨st, rfl, ⟨hts, hInv.2.1, hInv.2.2.1, hInv.2.2.2⟩, rfl⟩
  · obtain ⟨st', h1, h2, h3⟩ :=
      trim_ok _ hts' (by rw [happ.1]; exact hema) (by rw [happ.2.1]; exact hma)
    exact ⟨st', h1, h2, by rw [h3, happ.2.2.2]⟩

theorem seriesInv_of_tradeFrame {a b : EngineState}
    (hf : tradeFrame a b) (h : SeriesInv b) : SeriesInv a := by
  obtain ⟨_, _, _, _, _, _, f7, f8, f9, f10, f11, _, _⟩ := hf
  unfold SeriesInv at *
  rw [f7, f8, f9, f10, f11]
  exact h

theorem update_cross_tag_frame (st : EngineState) (cross : CrossSignal) :
    tradeFrame (update_cross_tag st cross) st := by
  simp only [update_cross_tag]
  split_ifs <;> exact tradeFrame_refl st

theorem seriesInv_decision (st : EngineState) (o : Oracle) (k : Kline)
    (cross : CrossSignal) (h : SeriesInv st) :
    SeriesInv (decision_phase st o k cross).state := by
  have hsync : SeriesInv (manual_sync (update_cross_tag st cross) o k.close).1 :=
    seriesInv_of_tradeFrame
      (tradeFrame_trans (manual_sync_frame _ _ _) (update_cross_tag_frame st cross)) h
  have h2 := seriesInv_of_tradeFrame
    (trade_logic_frame (manual_sync (update_cross_tag st cross) o k.close).1
      (manual_sync (update_cross_tag st cross) o k.close).2 k cross k.close) hsync
  simp only [decision_phase]
  split
  · exact hsync
  · split
    · exact h2
    · exact h2

theorem seriesInv_post (st1 : EngineState) (o : Oracle) (k : Kline)
    (h : SeriesInv st1) : SeriesInv (post_advance st1 o k).state := by
  simp only [post_advance]
  split
  · exact h
  · exact h
  · split
    · exact seriesInv_decision _ _ _ _ h
    · exact h

theorem ingest_foldl_fields : ∀ (l : List Kline) (s : EngineState),
    (l.foldl ingest_append s).timestamps.length = s.timestamps.length + l.length ∧
    (l.foldl ingest_append s).closes.length = s.closes.length + l.length ∧
    (l.foldl ingest_append s).ema_period = s.ema_period ∧
    (l.foldl ingest_append s).ma_period = s.ma_period := by
  intro l
  induction l with
  | nil => intro s; simp
  | cons a t ih =>
    intro s
    obtain ⟨i1, i2, i3, i4⟩ := ih (ingest_append s a)
    refine ⟨?_, ?_, ?_, ?_⟩
    · rw [List.foldl_cons, i1]; simp [ingest_append]; omega
    · rw [List.foldl_cons, i2]; simp [ingest_append]; omega
    · rw [List.foldl_cons, i3]; rfl
    · rw [List.foldl_cons, i4]; rfl

/-- C10: after `ingest_historical` and after `on_realtime_kline` (with valid
positive indicator periods), the in-memory series stay aligned
(`len timestamps = len closes = len ema_list = len ma_list`) and, when
`series_maxlen > 0`, bounded by it, older entries being dropped from the
front. -/
theorem series_alignment (st : EngineState) (hInv : SeriesInv st)
    (hema : 0 < st.ema_period) (hma : 0 < st.ma_period) :
    (∀ ks, SeriesInv (ingest_historical st ks).1) ∧
    (∀ o k, SeriesInv (on_realtime_kline st o k).state) := by
  constructor
  · intro ks
    simp only [ingest_historical]
    obtain ⟨i1, i2, i3, i4⟩ := ingest_foldl_fields ks st
    have hts' : (ks.foldl ingest_append st).timestamps.length =
        (ks.foldl ingest_append st).closes.length := by
      rw [i1, i2, hInv.1]
    obtain ⟨st', h1, h2, _⟩ :=
      trim_ok _ hts' (by rw [i3]; exact hema) (by rw [i4]; omega)
    rw [h1]
    exact h2
  · intro o k
    simp only [on_realtime_kline]
    have hInvA : SeriesInv ({ st with current_price := some k.close }) := hInv
    obtain ⟨st1, hadv, hInv1, _⟩ :=
      advance_ok _ k hInvA hema (by show st.ma_period ≠ 0; omega)
    rw [hadv]
    exact seriesInv_post st1 o k hInv1

/-- Witness for `series_alignment` at a concrete state. -/
theorem series_alignment_witness :
    SeriesInv (ingest_historical c2State []).1 ∧
    SeriesInv (on_realtime_kline c2State ⟨[], []⟩ c2Kline).state :=
  ⟨(series_alignment c2State
      (by simp [SeriesInv, c2State, testState]) (by norm_num [c2State, testState])
      (by norm_num [c2State, testState])).1 [],
   (series_alignment c2State
      (by simp [SeriesInv, c2State, testState]) (by norm_num [c2State, testState])
      (by norm_num [c2State, testState])).2 ⟨[], []⟩ c2Kline⟩

/-! Claim C8: what a non-final tick can and cannot change. -/

theorem advance_nonfinal (st : EngineState) (k : Kline)
    (hc : st.use_closed_only = true) (hf : k.is_final = false) :
    advance_series st k = (st, none) := by
  simp [advance_series, hc, hf]

theorem update_cross_tag_extra (st : EngineState) (cross : CrossSignal) :
    (update_cross_tag st cross).trades = st.trades ∧
    (update_cross_tag st cross).wallet = st.wallet ∧
    (update_cross_tag st cross).balance = st.balance ∧
    (update_cross_tag st cross).position = st.position ∧
    (update_cross_tag st cross).position_table = st.position_table ∧
    (update_cross_tag st cross).test_mode = st.test_mode := by
  simp only [update_cross_tag]
  split_ifs <;> exact ⟨rfl, rfl, rfl, rfl, rfl, rfl⟩

theorem manual_sync_extra (st : EngineState) (o : Oracle) (price : ℚ) :
    (manual_sync st o price).1.trades = st.trades ∧
    (manual_sync st o price).1.wallet = st.wallet ∧
    (manual_sync st o price).1.balance = st.balance ∧
    (st.test_mode = true → (manual_sync st o price).1 = st) := by
  simp only [manual_sync]
  split
  · rename_i hcond
    have htm : st.test_mode = false := by
      rcases htm : st.test_mode with _ | _
      · rfl
      · rw [htm] at hcond; simp at hcond
    split
    · split
      · split
        · exact ⟨rfl, rfl, rfl, fun h => by rw [h] at htm; cases htm⟩
        · exact ⟨rfl, rfl, rfl, fun h => rfl⟩
      · exact ⟨rfl, rfl, rfl, fun h => rfl⟩
    · exact ⟨rfl, rfl, rfl, fun h => rfl⟩
  · exact ⟨rfl, rfl, rfl, fun h => rfl⟩

theorem decision_nonfinal (st2 : EngineState) (o : Oracle) (k : Kline)
    (cross : CrossSignal) (hc : st2.use_closed_only = true)
    (hf : k.is_final = false) :
    (decision_phase st2 o k cross).state.timestamps = st2.timestamps ∧
    (decision_phase st2 o k cross).state.closes = st2.closes ∧
    (decision_phase st2 o k cross).state.ema_list = st2.ema_list ∧
    (decision_phase st2 o k cross).state.ma_list = st2.ma_list ∧
    (decision_phase st2 o k cross).actions = [] ∧
    (decision_phase st2 o k cross).state.trades = st2.trades ∧
    (decision_phase st2 o k cross).state.wallet = st2.wallet ∧
    (decision_phase st2 o k cross).state.balance = st2.balance ∧
    (decision_phase st2 o k cross).state.klines_table = st2.klines_table ∧
    (st2.test_mode = true →
      (decision_phase st2 o k cross).state.position = st2.position ∧
      (decision_phase st2 o k cross).state.position_table = st2.position_table) := by
  have hfr := tradeFrame_trans
    (manual_sync_frame (update_cross_tag st2 cross) o k.close)
    (update_cross_tag_frame st2 cross)
  have hcu := update_cross_tag_extra st2 cross
  have hms := manual_sync_extra (update_cross_tag st2 cross) o k.close
  have hsc : (manual_sync (update_cross_tag st2 cross) o k.close).1.use_closed_only
      = true := by
    rw [hfr.2.2.1]
    exact hc
  simp only [decision_phase]
  rw [if_pos (by rw [hsc, hf]; rfl)]
  refine ⟨hfr.2.2.2.2.2.2.2.1, hfr.2.2.2.2.2.2.2.2.1, hfr.2.2.2.2.2.2.2.2.2.1,
    hfr.2.2.2.2.2.2.2.2.2.2.1, rfl, hms.1.trans hcu.1, hms.2.1.trans hcu.2.1,
    hms.2.2.1.trans hcu.2.2.1, hfr.2.2.2.2.2.2.2.2.2.2.2.2, ?_⟩
  intro htm
  have hid := hms.2.2.2 (by rw [hcu.2.2.2.2.2]; exact htm)
  rw [hid]
  exact ⟨hcu.2.2.2.1, hcu.2.2.2.2.1⟩

/-- C8 (amended): when `use_closed_only` is enabled, a non-final price update
never mutates the closed-price series or the indicator series, submits no
order, writes no trade, wallet snapshot or kline row and changes no balance;
in simulated mode the position and the position table are untouched as well
(in live mode the manual sync may additionally adopt a manually opened
exchange position, as the counterexample shows); only the live price, the
unclosed-candle view and the cross-log tag change otherwise. -/
theorem nonfinal_tick_frame (st : EngineState) (o : Oracle) (k : Kline)
    (hc : st.use_closed_only = true) (hf : k.is_final = false) :
    (on_realtime_kline st o k).state.timestamps = st.timestamps ∧
    (on_realtime_kline st o k).state.closes = st.closes ∧
    (on_realtime_kline st o k).state.ema_list = st.ema_list ∧
    (on_realtime_kline st o k).state.ma_list = st.ma_list ∧
    (on_realtime_kline st o k).actions = [] ∧
    (on_realtime_kline st o k).state.trades = st.trades ∧
    (on_realtime_kline st o k).state.wallet = st.wallet ∧
    (on_realtime_kline st o k).state.balance = st.balance ∧
    (on_realtime_kline st o k).state.klines_table = st.klines_table ∧
    (st.test_mode = true →
      (on_realtime_kline st o k).state.position = st.position ∧
      (on_realtime_kline st o k).state.position_table = st.position_table) := by
  have hadv := advance_nonfinal ({ st with current_price := some k.close }) k hc hf
  simp only [on_realtime_kline, hadv]
  simp only [post_advance]
  split
  · exact ⟨rfl, rfl, rfl, rfl, rfl, rfl, rfl, rfl, rfl, fun h => ⟨rfl, rfl⟩⟩
  · exact ⟨rfl, rfl, rfl, rfl, rfl, rfl, rfl, rfl, rfl, fun h => ⟨rfl, rfl⟩⟩
  · split
    · exact decision_nonfinal _ o k _ hc hf
    · exact ⟨rfl, rfl, rfl, rfl, rfl, rfl, rfl, rfl, rfl, fun h => ⟨rfl, rfl⟩⟩

/-- Witness for `nonfinal_tick_frame` at a concrete non-final tick. -/
theorem nonfinal_tick_frame_witness :
    (on_realtime_kline c2State ⟨[], []⟩ c8Kline).state.closes = c2State.closes ∧
    (on_realtime_kline c2State ⟨[], []⟩ c8Kline).actions = [] :=
  ⟨(nonfinal_tick_frame c2State ⟨[], []⟩ c8Kline rfl rfl).2.1,
   (nonfinal_tick_frame c2State ⟨[], []⟩ c8Kline rfl rfl).2.2.2.2.1⟩

/-! Claim C2: the open condition when flat. -/

theorem crossover_endpoint_none (el ml : List (Option ℚ)) (eps : ℚ)
    (h : el.getLast? = some none ∨ ml.getLast? = some none) :
    crossover el ml eps = ⟨false, false⟩ := by
  unfold crossover
  by_cases h1 : (el.isEmpty || ml.isEmpty) = true
  · rw [if_pos h1]
  rw [if_neg h1]
  by_cases h2 : (decide (el.length < 2) || decide (ml.length < 2)) = true
  · rw [if_pos h2]
  rw [if_neg h2]
  rcases hrev1 : el.reverse with _ | ⟨a, rest1⟩
  · rfl
  rcases rest1 with _ | ⟨b, tel⟩
  · rfl
  rcases hrev2 : ml.reverse with _ | ⟨c, rest2⟩
  · rfl
  rcases rest2 with _ | ⟨d, tml⟩
  · rfl
  rcases b with _ | pe
  · rfl
  rcases a with _ | ce
  · rfl
  rcases d with _ | pm
  · rfl
  rcases c with _ | cm
  · rfl
  exfalso
  have hel : el.getLast? = some (some ce) := by
    rw [← List.head?_reverse, hrev1]; rfl
  have hml : ml.getLast? = some (some cm) := by
    rw [← List.head?_reverse, hrev2]; rfl
  rcases h with h | h
  · rw [hel] at h; simp at h
  · rw [hml] at h; simp at h

theorem open_with_confirm_aux_test (side : Side) (price : ℚ) (n : Nat)
    (st : EngineState) (o : Oracle) (htm : st.test_mode = true) :
    (open_with_confirm_aux side price (n + 1) st o).actions =
      [Action.openAttempt side] ∧
    (open_with_confirm_aux side price (n + 1) st o).ok = true := by
  rw [open_with_confirm_aux]
  have hop : open_position st o side price =
      ⟨true, applyOpenFill st side price (notional_and_qty st price).2, o,
        [.openAttempt side]⟩ := by
    simp only [open_position]
    rw [if_neg (by rw [htm]; simp)]
  rw [hop]
  simp [applyOpenFill, htm]

theorem open_with_confirm_test (st : EngineState) (o : Oracle) (side : Side)
    (price : ℚ) (htm : st.test_mode = true) :
    (open_with_confirm st o side price).actions = [Action.openAttempt side] ∧
    (open_with_confirm st o side price).ok = true :=
  open_with_confirm_aux_test side price 4 st o htm

theorem trade_logic_flat_test (st : EngineState) (o : Oracle) (k : Kline)
    (cross : CrossSignal) (price : ℚ) (htm : st.test_mode = true)
    (hflat : st.position.side = none) :
    (trade_logic st o k cross price).2.2 =
      (if cross.golden_cross then [Action.openAttempt .long]
       else if cross.death_cross then [Action.openAttempt .short] else []) := by
  have hlive : (k.is_final && !st.test_mode && st.has_client) = false := by
    rw [htm]; simp
  simp only [trade_logic, hflat]
  split
  · rw [hlive]
    simp only [Bool.false_eq_true, if_false]
    exact (open_with_confirm_test st o .long price htm).1
  · split
    · rw [hlive]
      simp only [Bool.false_eq_true, if_false]
      exact (open_with_confirm_test st o .short price htm).1
    · rfl

theorem decision_open_iff (st2 : EngineState) (o : Oracle) (k : Kline)
    (cross : CrossSignal) (htm : st2.test_mode = true)
    (hflat : st2.position.side = none)
    (hcf : st2.use_closed_only = true → k.is_final = true) :
    ((Action.openAttempt .long ∈ (decision_phase st2 o k cross).actions ↔
        cross.golden_cross = true) ∧
      (Action.openAttempt .short ∈ (decision_phase st2 o k cross).actions ↔
        (cross.death_cross = true ∧ cross.golden_cross = false)) ∧
      (decision_phase st2 o k cross).err = none ∧
      (decision_phase st2 o k cross).state.ema_list = st2.ema_list ∧
      (decision_phase st2 o k cross).state.ma_list = st2.ma_list) := by
  have hcu := update_cross_tag_extra st2 cross
  have hcuf := update_cross_tag_frame st2 cross
  have hid : (manual_sync (update_cross_tag st2 cross) o k.close).1 =
      update_cross_tag st2 cross :=
    (manual_sync_extra (update_cross_tag st2 cross) o k.close).2.2.2
      (by rw [hcu.2.2.2.2.2]; exact htm)
  have hbc : ((manual_sync (update_cross_tag st2 cross) o k.close).1.use_closed_only
      && !k.is_final) = false := by
    rw [hid, hcuf.2.2.1]
    rcases hco : st2.use_closed_only with _ | _
    · simp
    · rw [hcf hco]; rfl
  have htl := trade_logic_flat_test
    (manual_sync (update_cross_tag st2 cross) o k.close).1
    (manual_sync (update_cross_tag st2 cross) o k.close).2 k cross k.close
    (by rw [hid, hcu.2.2.2.2.2]; exact htm)
    (by rw [hid, hcu.2.2.2.1]; exact hflat)
  have htlf := trade_logic_frame
    (manual_sync (update_cross_tag st2 cross) o k.close).1
    (manual_sync (update_cross_tag st2 cross) o k.close).2 k cross k.close
  have hfr := tradeFrame_trans
    (manual_sync_frame (update_cross_tag st2 cross) o k.close)
    (update_cross_tag_frame st2 cross)
  simp only [decision_phase]
  rw [if_neg (by rw [hbc]; simp)]
  refine ⟨?_, ?_, ?_, ?_, ?_⟩
  · show Action.openAttempt .long ∈
      (trade_logic (manual_sync (update_cross_tag st2 cross) o k.close).1
        (manual_sync (update_cross_tag st2 cross) o k.close).2 k cross k.close).2.2 ↔ _
    rw [htl]
    rcases hg : cross.golden_cross with _ | _
    · rcases hd : cross.death_cross with _ | _ <;> simp
    · simp
  · show Action.openAttempt .short ∈
      (trade_logic (manual_sync (update_cross_tag st2 cross) o k.close).1
        (manual_sync (update_cross_tag st2 cross) o k.close).2 k cross k.close).2.2 ↔ _
    rw [htl]
    rcases hg : cross.golden_cross with _ | _
    · rcases hd : cross.death_cross with _ | _ <;> simp
    · simp
  · split <;> rfl
  · show (if k.is_final = true then _ else _ : EngineState).ema_list = st2.ema_list
    split <;> rw [show ∀ x : EngineState, x.ema_list = x.ema_list from fun _ => rfl] <;>
      rw [htlf.2.2.2.2.2.2.2.2.2.1, hfr.2.2.2.2.2.2.2.2.2.1]
  · show (if k.is_final = true then _ else _ : EngineState).ma_list = st2.ma_list
    split <;>
      rw [htlf.2.2.2.2.2.2.2.2.2.2.1, hfr.2.2.2.2.2.2.2.2.2.2.1]

theorem recalc_cfg (st : EngineState) :
    (recalc_indicators st).1.test_mode = st.test_mode ∧
    (recalc_indicators st).1.use_closed_only = st.use_closed_only := by
  simp only [recalc_indicators]
  split
  · exact ⟨rfl, rfl⟩
  · split <;> exact ⟨rfl, rfl⟩

theorem trim_cfg (st : EngineState) :
    (trim_series_if_needed st).1.test_mode = st.test_mode ∧
    (trim_series_if_needed st).1.use_closed_only = st.use_closed_only := by
  simp only [trim_series_if_needed]
  split
  · exact recalc_cfg st
  · split
    · exact recalc_cfg st
    · exact recalc_cfg _

theorem append_or_replace_cfg (st : EngineState) (t : Int) (p : ℚ) :
    (append_or_replace st t p).test_mode = st.test_mode ∧
    (append_or_replace st t p).use_closed_only = st.use_closed_only := by
  simp only [append_or_replace]
  split <;> exact ⟨rfl, rfl⟩

theorem advance_cfg (st : EngineState) (k : Kline) :
    (advance_series st k).1.test_mode = st.test_mode ∧
    (advance_series st k).1.use_closed_only = st.use_closed_only ∧
    (advance_series st k).1.position = st.position := by
  simp only [advance_series]
  split
  · split
    · refine ⟨?_, ?_, ?_⟩
      · rw [(trim_cfg _).1, (append_or_replace_cfg st k.close_time k.close).1]
      · rw [(trim_cfg _).2, (append_or_replace_cfg st k.close_time k.close).2]
      · rw [trim_position_eq, (append_or_replace_fields st k.close_time k.close).2.2.2]
    · exact ⟨rfl, rfl, rfl⟩
  · refine ⟨?_, ?_, ?_⟩
    · rw [(trim_cfg _).1, (append_or_replace_cfg st k.close_time k.close).1]
    · rw [(trim_cfg _).2, (append_or_replace_cfg st k.close_time k.close).2]
    · rw [trim_position_eq, (append_or_replace_fields st k.close_time k.close).2.2.2]

theorem post_advance_open_iff (st1 : EngineState) (o : Oracle) (k : Kline)
    (htm : st1.test_mode = true) (hflat : st1.position.side = none)
    (hcf : st1.use_closed_only = true → k.is_final = true) :
    (Action.openAttempt .long ∈ (post_advance st1 o k).actions ↔
      ((crossover (post_advance st1 o k).state.ema_list
          (post_advance st1 o k).state.ma_list defaultEps).golden_cross = true ∧
        (post_advance st1 o k).err = none)) ∧
    (Action.openAttempt .short ∈ (post_advance st1 o k).actions ↔
      ((crossover (post_advance st1 o k).state.ema_list
          (post_advance st1 o k).state.ma_list defaultEps).death_cross = true ∧
        (crossover (post_advance st1 o k).state.ema_list
          (post_advance st1 o k).state.ma_list defaultEps).golden_cross = false ∧
        (post_advance st1 o k).err = none)) := by
  simp only [post_advance]
  split
  · constructor <;> simp
  · constructor <;> simp
  · split
    · have hd := decision_open_iff ({ st1 with latest_kline := some k }) o k
        (crossover st1.ema_list st1.ma_list defaultEps) htm hflat hcf
      have he1 : (decision_phase ({ st1 with latest_kline := some k }) o k
          (crossover st1.ema_list st1.ma_list defaultEps)).state.ema_list
          = st1.ema_list := hd.2.2.2.1
      have he2 : (decision_phase ({ st1 with latest_kline := some k }) o k
          (crossover st1.ema_list st1.ma_list defaultEps)).state.ma_list
          = st1.ma_list := hd.2.2.2.2
      constructor
      · constructor
        · intro hin
          refine ⟨?_, hd.2.2.1⟩
          rw [he1, he2]
          exact (hd.1).mp hin
        · intro hg
          apply (hd.1).mpr
          have := hg.1
          rw [he1, he2] at this
          exact this
      · constructor
        · intro hin
          have hds := (hd.2.1).mp hin
          refine ⟨?_, ?_, hd.2.2.1⟩
          · rw [he1, he2]
            exact hds.1
          · rw [he1, he2]
            exact hds.2
        · intro hg
          apply (hd.2.1).mpr
          have h1 := hg.1
          have h2 := hg.2.1
          rw [he1, he2] at h1 h2
          exact ⟨h1, h2⟩
    · rename_i a b e1 m1 he hm e2 m2 hno
      have hend : st1.ema_list.getLast? = some none ∨
          st1.ma_list.getLast? = some none := by
        rcases e1 with _ | v1
        · exact Or.inl he
        rcases m1 with _ | v2
        · exact Or.inr hm
        · exact (hno v1 v2 rfl rfl).elim
      constructor <;> simp [crossover_endpoint_none _ _ _ hend]

/-- C2 (amended): in simulated mode, when the engine is flat and — under
`use_closed_only` — the candle is final, an open-LONG is attempted iff a
golden cross fired on the post-update indicator series (and the update raised
no exception), and an open-SHORT is attempted iff a death cross fired while no
golden cross did (the golden branch has priority, trading.py:631/682).  The
slope filter (`use_slope` with `is_rising`) and the price-versus-EMA/SMA
comparisons claimed as gates are computed by the source but never consulted:
the open conditions are `cond_long = bool(cross.golden_cross)` and
`cond_short = bool(cross.death_cross)` alone (trading.py:624-625), as the
counterexample shows concretely. -/
theorem flat_open_iff_golden (st : EngineState) (o : Oracle) (k : Kline)
    (htm : st.test_mode = true) (hflat : st.position.side = none)
    (hcf : st.use_closed_only = true → k.is_final = true) :
    (Action.openAttempt .long ∈ (on_realtime_kline st o k).actions ↔
      ((crossover (on_realtime_kline st o k).state.ema_list
          (on_realtime_kline st o k).state.ma_list defaultEps).golden_cross = true ∧
        (on_realtime_kline st o k).err = none)) ∧
    (Action.openAttempt .short ∈ (on_realtime_kline st o k).actions ↔
      ((crossover (on_realtime_kline st o k).state.ema_list
          (on_realtime_kline st o k).state.ma_list defaultEps).death_cross = true ∧
        (crossover (on_realtime_kline st o k).state.ema_list
          (on_realtime_kline st o k).state.ma_list defaultEps).golden_cross = false ∧
        (on_realtime_kline st o k).err = none)) := by
  simp only [on_realtime_kline]
  cases hE : (advance_series ({ st with current_price := some k.close }) k).2 with
  | some e => constructor <;> simp
  | none =>
    have hcfg := advance_cfg ({ st with current_price := some k.close }) k
    exact post_advance_open_iff _ o k (by rw [hcfg.1]; exact htm)
      (by rw [hcfg.2.2]; exact hflat)
      (fun h => hcf (by rw [← hcfg.2.1]; exact h))

/-- Witness for `flat_open_iff_golden` at the concrete state of the
counterexample. -/
theorem flat_open_iff_golden_witness :
    ((Action.openAttempt .long ∈ (on_realtime_kline c2State ⟨[], []⟩ c2Kline).actions ↔
      ((crossover (on_realtime_kline c2State ⟨[], []⟩ c2Kline).state.ema_list
          (on_realtime_kline c2State ⟨[], []⟩ c2Kline).state.ma_list
          defaultEps).golden_cross = true ∧
        (on_realtime_kline c2State ⟨[], []⟩ c2Kline).err = none)) ∧
    (Action.openAttempt .short ∈ (on_realtime_kline c2State ⟨[], []⟩ c2Kline).actions ↔
      ((crossover (on_realtime_kline c2State ⟨[], []⟩ c2Kline).state.ema_list
          (on_realtime_kline c2State ⟨[], []⟩ c2Kline).state.ma_list
          defaultEps).death_cross = true ∧
        (crossover (on_realtime_kline c2State ⟨[], []⟩ c2Kline).state.ema_list
          (on_realtime_kline c2State ⟨[], []⟩ c2Kline).state.ma_list
          defaultEps).golden_cross = false ∧
        (on_realtime_kline c2State ⟨[], []⟩ c2Kline).err = none))) :=
  flat_open_iff_golden c2State ⟨[], []⟩ c2Kline rfl rfl (fun _ => rfl)

end EmaMa
